import Mathlib

/-!
The monkey-db page allocator and page I/O.

A shallow embedding of `main.c`.

Conventions of the embedding.

* A C pointer is an `Option`: `none` is `NULL`, `some v` points to an object
  whose current contents are `v`.
* A function that mutates an object through a pointer returns the new contents.
* Every function returns an outer `Option`: `none` means the C program has
  left defined behaviour (an array access outside the block, a dereference of
  `NULL`, signed overflow), `some r` is the normal outcome `r`.
* `int` values are `Int`; the `size_t` products handed to `malloc` are reduced
  modulo `2 ^ 64`.
* `malloc` is described by a `Heap`: which requests it grants and what the
  cells of a fresh block hold before the program writes them.
-/

namespace MonkeyDb

/-! ## Constants -/

def PAGE_SIZE : Int := 4096
def MAX_PAGE : Int := 100
def HEADER_PAGE : Int := 0
def FIRST_FREE_PAGE : Int := 2

/-- Largest value of the C type `int`. -/
def INT_MAX : Int := 2147483647

/-- Smallest value of the C type `int`. -/
def INT_MIN : Int := -2147483648

/-- Modulus of `size_t` arithmetic. -/
def SIZE_MODULUS : Nat := 2 ^ 64

def sizeof_int : Nat := 4

/-- Bytes of `struct PageManager`: a pointer and two `int`s. -/
def sizeof_PageManager : Nat := 16

/-- Length of the `data` array of `struct Page`. -/
def PAGE_DATA_LEN : Nat := 4096

/-- Bytes of `struct Page`: an `int` and `char data[4096]`. -/
def sizeof_Page : Nat := 4100

/-- Bytes of `struct Dal`: a pointer, an `int` (padded) and a pointer. -/
def sizeof_Dal : Nat := 24

/-! ## The heap -/

/-- Behaviour of `malloc`: `grants n` tells whether a request of `n` bytes
succeeds; `int_cell i` and `byte_cell i` are the indeterminate values found in
the `i`-th `int`, respectively the `i`-th byte, of a block that has just been
handed out. -/
structure Heap where
  grants : Nat → Bool
  int_cell : Nat → Int
  byte_cell : Nat → Nat

/-- A heap that grants every request of at most `PTRDIFF_MAX` bytes and hands
out zeroed blocks. -/
def zeroed_heap : Heap :=
  { grants := fun n => decide (n ≤ 2 ^ 63 - 1), int_cell := fun _ => 0, byte_cell := fun _ => 0 }

/-- A heap that grants every request of at most `PTRDIFF_MAX` bytes and hands
out blocks whose bytes are all `0xAA` (and whose `int` cells are all `-1`). -/
def stale_heap : Heap :=
  { grants := fun n => decide (n ≤ 2 ^ 63 - 1), int_cell := fun _ => -1, byte_cell := fun _ => 170 }

/-- A heap with no memory left. -/
def empty_heap : Heap :=
  { grants := fun _ => false, int_cell := fun _ => 0, byte_cell := fun _ => 0 }

/-! ## The page manager -/

/-- Contents of a `struct PageManager`. `free_pages` is the pointer to the
`int` array (`none` is `NULL`); the list is the whole allocated block. -/
structure PageManager where
  free_pages : Option (List Int)
  max_page : Int
  next_free_page : Int
deriving DecidableEq, Repr

/-- The `size_t` value of `sizeof(int) * max_page`. -/
def free_pages_bytes (max_page : Int) : Nat :=
  (((sizeof_int : Int) * max_page) % (SIZE_MODULUS : Int)).toNat

/-- The call `malloc(bytes)` for an array of `int`: `NULL`, or a block of
`bytes / sizeof(int)` cells with indeterminate contents. -/
def malloc_ints (heap : Heap) (bytes : Nat) : Option (List Int) :=
  if heap.grants bytes then some ((List.range (bytes / sizeof_int)).map heap.int_cell) else none

/-- The loop `for (int i = 0; i < max_page; i++) pm->free_pages[i] = i;`.
A store outside the block is undefined behaviour. -/
def fill_free_pages (max_page : Int) (block : List Int) : Option (List Int) :=
  (List.range max_page.toNat).foldlM
    (fun fp i => if i < fp.length then some (fp.set i (i : Int)) else none) block

/-- The function `initialize_page_manager(max_page)`. -/
def initialize_page_manager (heap : Heap) (max_page : Int) : Option (Option PageManager) :=
  if heap.grants sizeof_PageManager then
    match malloc_ints heap (free_pages_bytes max_page) with
    | none => some none
    | some block =>
      match fill_free_pages max_page block with
      | none => none
      | some fp =>
        some (some { free_pages := some fp, max_page := max_page,
                     next_free_page := FIRST_FREE_PAGE })
  else some none

/-- The function `release_page(pm, page_num)`; the result is the manager after
the call. -/
def release_page (pm : Option PageManager) (page_num : Int) : Option (Option PageManager) :=
  match pm with
  | none => some none
  | some m =>
    match m.free_pages with
    | none => some (some m)
    | some fp =>
      if m.next_free_page < m.max_page then
        if 0 ≤ m.next_free_page ∧ m.next_free_page.toNat < fp.length then
          some (some { m with free_pages := some (fp.set m.next_free_page.toNat page_num),
                              next_free_page := m.next_free_page + 1 })
        else none
      else some (some m)

/-- The function `get_next_free_page(pm)`; the result is the manager after the
call together with the returned `int`. -/
def get_next_free_page (pm : Option PageManager) : Option (Option PageManager × Int) :=
  match pm with
  | none => some (none, -1)
  | some m =>
    match m.free_pages with
    | none => some (some m, -1)
    | some fp =>
      if m.next_free_page > 0 then
        match fp[(m.next_free_page - 1).toNat]? with
        | some v => some (some { m with next_free_page := m.next_free_page - 1 }, v)
        | none => none
      else some (some m, -1)

/-! ## Call sequences on a manager -/

/-- One call made by a client of the allocator. -/
inductive Call where
  | get : Call
  | release (page_num : Int) : Call
deriving DecidableEq, Repr

/-- What a client observes of one call: the value `get_next_free_page`
returned, or the argument it passed to `release_page` (which returns `void`). -/
inductive Event where
  | got (r : Int) : Event
  | released (page_num : Int) : Event
deriving DecidableEq, Repr

/-- Runs a sequence of calls on a manager, threading the manager through them;
the result is the final manager and the observed events in call order. -/
def run_calls : Option PageManager → List Call → Option (Option PageManager × List Event)
  | pm, [] => some (pm, [])
  | pm, Call.get :: rest =>
    match get_next_free_page pm with
    | none => none
    | some (pm1, r) =>
      match run_calls pm1 rest with
      | none => none
      | some (pm2, evs) => some (pm2, Event.got r :: evs)
  | pm, Call.release page_num :: rest =>
    match release_page pm page_num with
    | none => none
    | some pm1 =>
      match run_calls pm1 rest with
      | none => none
      | some (pm2, evs) => some (pm2, Event.released page_num :: evs)

/-- The values returned by the `get_next_free_page` calls of a trace. -/
def returned_values : List Event → List Int
  | [] => []
  | Event.got r :: evs => r :: returned_values evs
  | Event.released _ :: evs => returned_values evs

/-- The arguments of the `release_page` calls of a trace. -/
def released_values : List Event → List Int
  | [] => []
  | Event.got _ :: evs => released_values evs
  | Event.released page_num :: evs => page_num :: released_values evs

/-- The identifiers a client holds after an event, given those it held before:
a returned value other than the exhausted value `-1` becomes held, a released
identifier stops being held. -/
def held_after (held : List Int) : Event → List Int
  | Event.got r => if r = -1 then held else r :: held
  | Event.released page_num => held.filter (fun x => x ≠ page_num)

/-- No double allocation along a trace: no `get_next_free_page` returns an
identifier that the client holds at that moment. -/
def no_double_allocation : List Int → List Event → Prop
  | _, [] => True
  | held, Event.got r :: evs =>
    (r = -1 ∨ r ∉ held) ∧ no_double_allocation (held_after held (Event.got r)) evs
  | held, Event.released page_num :: evs =>
    no_double_allocation (held_after held (Event.released page_num)) evs

/-- Disciplined releases along a trace: every `release_page` passes an
identifier that the client holds at that moment. -/
def releases_only_held : List Int → List Event → Prop
  | _, [] => True
  | held, Event.got r :: evs => releases_only_held (held_after held (Event.got r)) evs
  | held, Event.released page_num :: evs =>
    page_num ∈ held ∧ releases_only_held (held_after held (Event.released page_num)) evs

instance no_double_allocation_decidable :
    (held : List Int) → (evs : List Event) → Decidable (no_double_allocation held evs)
  | _, [] => isTrue trivial
  | held, Event.got r :: evs =>
    have := no_double_allocation_decidable (held_after held (Event.got r)) evs
    inferInstanceAs (Decidable
      ((r = -1 ∨ r ∉ held) ∧ no_double_allocation (held_after held (Event.got r)) evs))
  | held, Event.released page_num :: evs =>
    no_double_allocation_decidable (held_after held (Event.released page_num)) evs

instance releases_only_held_decidable :
    (held : List Int) → (evs : List Event) → Decidable (releases_only_held held evs)
  | _, [] => isTrue trivial
  | held, Event.got r :: evs =>
    releases_only_held_decidable (held_after held (Event.got r)) evs
  | held, Event.released page_num :: evs =>
    have := releases_only_held_decidable (held_after held (Event.released page_num)) evs
    inferInstanceAs (Decidable
      (page_num ∈ held ∧ releases_only_held (held_after held (Event.released page_num)) evs))

/-! ## Pages, the backing file and the data access layer -/

/-- Contents of a `struct Page`; `data` is the array `char data[4096]`. -/
structure Page where
  id : Int
  data : List Nat
deriving DecidableEq, Repr

/-- An open stdio stream: its mode, the bytes of the file and the file
position indicator. -/
structure FILE where
  readable : Bool
  writable : Bool
  bytes : List Nat
  pos : Nat
deriving DecidableEq, Repr

/-- Contents of a `struct Dal`. -/
structure Dal where
  fp : Option FILE
  page_size : Int
  pm : Option PageManager
deriving DecidableEq, Repr

/-- The call `fopen(filename, "w")`: when it succeeds the file is created or
truncated to length zero and the stream is open for writing only. -/
def fopen_w (succeeds : Bool) : Option FILE :=
  if succeeds then some { readable := false, writable := true, bytes := [], pos := 0 } else none

/-- The call `fseek(fp, offset, SEEK_SET)`: a negative offset is refused and
leaves the position where it was. -/
def fseek_set (f : FILE) (offset : Int) : FILE :=
  if offset < 0 then f else { f with pos := offset.toNat }

/-- Bytes of a file after `chunk` has been written at position `pos`; a gap
between the old end of the file and `pos` reads as zeros. -/
def write_at (bytes : List Nat) (pos : Nat) (chunk : List Nat) : List Nat :=
  let padded := bytes ++ List.replicate (pos - bytes.length) 0
  padded.take pos ++ chunk ++ padded.drop (pos + chunk.length)

/-- The call `fwrite(data, size, 1, fp)`. A stream that is not open for
writing, or a size of zero, transfers nothing. -/
def fwrite_one (data : List Nat) (size : Nat) (f : FILE) : Option FILE :=
  if f.writable = false ∨ size = 0 then some f
  else if data.length < size then none
  else some { f with bytes := write_at f.bytes f.pos (data.take size), pos := f.pos + size }

/-- The call `fread(buf, size, 1, fp)`; the result is the buffer and the stream
after the call. A stream that is not open for reading transfers nothing; at
the end of the file the bytes that are there are transferred. -/
def fread_one (buf : List Nat) (size : Nat) (f : FILE) : Option (List Nat × FILE) :=
  if f.readable = false ∨ size = 0 then some (buf, f)
  else if buf.length < size then none
  else
    let chunk := (f.bytes.drop f.pos).take size
    some (chunk ++ buf.drop chunk.length, { f with pos := f.pos + chunk.length })

/-- Product of two `int`s; overflow is undefined. -/
def int_mul (a b : Int) : Option Int :=
  if INT_MIN ≤ a * b ∧ a * b ≤ INT_MAX then some (a * b) else none

/-- Conversion of an `int` to `size_t`. -/
def size_t_of_int (n : Int) : Nat := (n % (SIZE_MODULUS : Int)).toNat

/-- The function `dal_open(dal, filename)`; `succeeds` tells whether `fopen`
does. -/
def dal_open (dal : Dal) (succeeds : Bool) : Dal :=
  match fopen_w succeeds with
  | some f => { dal with fp := some f }
  | none => dal

/-- The function `dal_close(dal)`; the stream pointer is dead afterwards. -/
def dal_close (dal : Dal) : Option Dal :=
  match dal.fp with
  | some _ => some { dal with fp := none }
  | none => none

/-- The function `allocate_empty_page(dal)`. The result of `malloc` is used
unchecked, and only the byte at index `page_size - 1` is written. -/
def allocate_empty_page (heap : Heap) (dal : Dal) : Option Page :=
  if heap.grants sizeof_Page then
    if 0 ≤ dal.page_size - 1 ∧ (dal.page_size - 1).toNat < PAGE_DATA_LEN then
      some { id := -1,
             data := ((List.range PAGE_DATA_LEN).map heap.byte_cell).set (dal.page_size - 1).toNat 0 }
    else none
  else none

/-- The function `read_page(dal, page_number)`; the result is the returned
page and the `Dal` after the call. -/
def read_page (heap : Heap) (dal : Dal) (page_number : Int) : Option (Page × Dal) :=
  match allocate_empty_page heap dal with
  | none => none
  | some page =>
    match dal.fp, int_mul page_number dal.page_size with
    | some f, some offset =>
      match fread_one page.data (size_t_of_int dal.page_size) (fseek_set f offset) with
      | none => none
      | some (data, f1) => some ({ page with data := data }, { dal with fp := some f1 })
    | _, _ => none

/-- The function `write_page(page, dal)`; the result is the `Dal` after the
call. -/
def write_page (page : Page) (dal : Dal) : Option Dal :=
  match dal.fp, int_mul page.id dal.page_size with
  | some f, some offset =>
    match fwrite_one page.data (size_t_of_int dal.page_size) (fseek_set f offset) with
    | none => none
    | some f1 => some { dal with fp := some f1 }
  | _, _ => none

/-- The function `create_dal(filename, page_size, max_page)`. The `Dal` block
is used unchecked; its `fp` field is not set (modelled as a dead pointer). -/
def create_dal (heap : Heap) (page_size max_page : Int) : Option (Option Dal) :=
  match initialize_page_manager heap max_page with
  | none => none
  | some none => some none
  | some (some pm) =>
    if heap.grants sizeof_Dal then
      some (some { fp := none, page_size := page_size, pm := some pm })
    else none

/-- The bytes of the C string `"data"` followed by zeros up to `n` bytes. -/
def data_payload (n : Nat) : List Nat :=
  [100, 97, 116, 97] ++ List.replicate (n - 4) 0

/-! ## Representation invariant of a manager -/

/-- A manager whose array is present and holds at least `max_page` cells and
whose cursor is not negative. -/
def well_formed (m : PageManager) : Prop :=
  ∃ fp, m.free_pages = some fp ∧ m.max_page.toNat ≤ fp.length ∧ 0 ≤ m.next_free_page

/-- Bounds invariant of the cursor: the array is present and holds at least
`max_page` cells, and `0 ≤ next_free_page ≤ max_page`. -/
def cursor_in_bounds (m : PageManager) : Prop :=
  ∃ fp, m.free_pages = some fp ∧ m.max_page.toNat ≤ fp.length ∧
    0 ≤ m.next_free_page ∧ m.next_free_page ≤ m.max_page

/-- Allocation invariant relative to the identifiers a client holds: the cursor
is in bounds, the entries below the cursor are pairwise distinct, none of them
is held or equal to `-1`, and `-1` is not held. -/
def free_region_disjoint (m : PageManager) (held : List Int) : Prop :=
  ∃ fp, m.free_pages = some fp ∧ m.max_page.toNat ≤ fp.length ∧
    0 ≤ m.next_free_page ∧ m.next_free_page ≤ m.max_page ∧
    (fp.take m.next_free_page.toNat).Nodup ∧
    (∀ x ∈ fp.take m.next_free_page.toNat, x ∉ held ∧ x ≠ -1) ∧
    (-1 : Int) ∉ held

/-- Invariant on the cells above the initial cursor: the cursor is in bounds
and every cell at an index `i` with `FIRST_FREE_PAGE ≤ i < next_free_page`
holds an identifier of the list `rel`. -/
def upper_cells_released (m : PageManager) (rel : List Int) : Prop :=
  ∃ fp, m.free_pages = some fp ∧ m.max_page.toNat ≤ fp.length ∧
    0 ≤ m.next_free_page ∧ m.next_free_page ≤ m.max_page ∧
    ∀ i : Nat, FIRST_FREE_PAGE.toNat ≤ i → i < m.next_free_page.toNat →
      ∃ v, fp[i]? = some v ∧ v ∈ rel

/-! ## Initialisation -/

theorem fill_loop_spec (n : Nat) (block : List Int) (h : n ≤ block.length) :
    ∃ fp, (List.range n).foldlM
        (fun fp i => if i < fp.length then some (fp.set i (i : Int)) else none) block = some fp
      ∧ fp.length = block.length
      ∧ ∀ i : Nat, fp[i]? = if i < n then some (i : Int) else block[i]? := by
  induction n with
  | zero => exact ⟨block, by simp, rfl, by simp⟩
  | succ n ih =>
    obtain ⟨fp, hfold, hlen, hget⟩ := ih (by omega)
    refine ⟨fp.set n (n : Int), ?_, by simp [hlen], ?_⟩
    · rw [List.range_succ, List.foldlM_append, hfold]
      have : n < fp.length := by omega
      simp [this]
    · intro i
      rw [List.getElem?_set]
      by_cases hi : n = i
      · subst hi
        have : n < fp.length := by omega
        simp [this]
      · rw [if_neg hi, hget i]
        by_cases h1 : i < n
        · have : i < n + 1 := by omega
          simp [h1, this]
        · have : ¬ i < n + 1 := by omega
          simp [h1, this]

theorem fill_loop_some (n : Nat) (block fp : List Int)
    (h : (List.range n).foldlM
        (fun fp i => if i < fp.length then some (fp.set i (i : Int)) else none) block = some fp) :
    n ≤ block.length := by
  induction n generalizing fp with
  | zero => omega
  | succ n ih =>
    rw [List.range_succ, List.foldlM_append] at h
    cases hfold : (List.range n).foldlM
        (fun fp i => if i < fp.length then some (fp.set i (i : Int)) else none) block with
    | none => rw [hfold] at h; simp at h
    | some fp1 =>
      have hn := ih fp1 hfold
      obtain ⟨fp2, hfold2, hlen, -⟩ := fill_loop_spec n block hn
      rw [hfold] at hfold2 h
      cases hfold2
      by_cases hlt : n < fp1.length
      · omega
      · simp [hlt] at h

theorem fresh_manager_shape (heap : Heap) (c : Int) (m : PageManager)
    (h : initialize_page_manager heap c = some (some m)) :
    m.max_page = c ∧ m.next_free_page = FIRST_FREE_PAGE ∧
      ∃ fp, m.free_pages = some fp ∧ c.toNat ≤ fp.length ∧
        ∀ i : Nat, i < c.toNat → fp[i]? = some (i : Int) := by
  unfold initialize_page_manager at h
  split at h
  · split at h
    · simp at h
    · rename_i block hblock
      split at h
      · simp at h
      · rename_i fp hfp
        simp only [Option.some.injEq] at h
        subst h
        unfold fill_free_pages at hfp
        have hle := fill_loop_some _ _ _ hfp
        obtain ⟨fp2, hfold, hlen, hget⟩ := fill_loop_spec _ block hle
        rw [hfp] at hfold
        cases hfold
        refine ⟨rfl, rfl, fp, rfl, by omega, ?_⟩
        intro i hi
        rw [hget i, if_pos hi]
  · simp at h

theorem free_pages_bytes_of_nonneg (c : Int) (h0 : 0 ≤ c) (h1 : c ≤ INT_MAX) :
    free_pages_bytes c = 4 * c.toNat := by
  unfold free_pages_bytes sizeof_int SIZE_MODULUS
  unfold INT_MAX at h1
  have : ((4 : Nat) : Int) * c % ((2 ^ 64 : Nat) : Int) = 4 * c := by
    apply Int.emod_eq_of_lt <;> push_cast <;> omega
  rw [this]
  omega

theorem initialize_granted (heap : Heap) (c : Int) (hhi : c ≤ INT_MAX)
    (h1 : heap.grants sizeof_PageManager = true)
    (h2 : heap.grants (free_pages_bytes c) = true) :
    ∃ m, initialize_page_manager heap c = some (some m) := by
  have hfill : ∃ fp, fill_free_pages c
      ((List.range (free_pages_bytes c / sizeof_int)).map heap.int_cell) = some fp := by
    unfold fill_free_pages
    have hle : c.toNat ≤
        ((List.range (free_pages_bytes c / sizeof_int)).map heap.int_cell).length := by
      by_cases h0 : 0 ≤ c
      · rw [free_pages_bytes_of_nonneg c h0 hhi]
        simp [sizeof_int]
      · have : c.toNat = 0 := by omega
        omega
    obtain ⟨fp, hfold, -, -⟩ := fill_loop_spec _ _ hle
    exact ⟨fp, hfold⟩
  obtain ⟨fp, hfp⟩ := hfill
  exact ⟨{ free_pages := some fp, max_page := c, next_free_page := FIRST_FREE_PAGE },
    by simp [initialize_page_manager, malloc_ints, h1, h2, hfp]⟩

/-! ## Claims about initialisation -/

theorem free_pages_bytes_of_neg (c : Int) (hlo : INT_MIN ≤ c) (hneg : c < 0) :
    2 ^ 63 ≤ free_pages_bytes c := by
  unfold free_pages_bytes sizeof_int SIZE_MODULUS
  unfold INT_MIN at hlo
  have : ((4 : Nat) : Int) * c % ((2 ^ 64 : Nat) : Int) = 4 * c + 2 ^ 64 := by
    rw [← Int.add_emod_self]
    apply Int.emod_eq_of_lt <;> push_cast <;> omega
  rw [this]
  omega

/-- C8 (counterexample): with memory available, `initialize_page_manager`
returns a manager for each of the capacities 2, 1 and 0. -/
theorem initialize_page_manager_accepts_small_capacity :
    initialize_page_manager zeroed_heap 2
        = some (some { free_pages := some [0, 1], max_page := 2, next_free_page := 2 }) ∧
      initialize_page_manager zeroed_heap 1
        = some (some { free_pages := some [0], max_page := 1, next_free_page := 2 }) ∧
      initialize_page_manager zeroed_heap 0
        = some (some { free_pages := some [], max_page := 0, next_free_page := 2 }) := by
  decide

/-- C8 (amended): `initialize_page_manager(c)` tests no capacity. For every
`int` capacity `c` it returns `NULL` exactly when one of its two `malloc`
requests is refused; when both are granted it returns a manager with
`max_page = c` and cursor 2. For a negative `c` the second request is
`4 * c` wrapped to `size_t`, at least `2 ^ 63` bytes. -/
theorem initialize_page_manager_fails_only_on_malloc (heap : Heap) (c : Int)
    (hlo : INT_MIN ≤ c) (hhi : c ≤ INT_MAX) :
    (initialize_page_manager heap c = some none ↔
        (heap.grants sizeof_PageManager = false ∨
          heap.grants (free_pages_bytes c) = false)) ∧
      ((heap.grants sizeof_PageManager = true ∧ heap.grants (free_pages_bytes c) = true) →
        ∃ m, initialize_page_manager heap c = some (some m) ∧ m.max_page = c ∧
          m.next_free_page = FIRST_FREE_PAGE) ∧
      (c < 0 → 2 ^ 63 ≤ free_pages_bytes c) := by
  refine ⟨?_, ?_, free_pages_bytes_of_neg c hlo⟩
  · constructor
    · intro h
      by_contra hcon
      simp only [not_or, Bool.not_eq_false] at hcon
      obtain ⟨m, hm⟩ := initialize_granted heap c hhi hcon.1 hcon.2
      rw [hm] at h
      simp at h
    · rintro (h | h)
      · simp [initialize_page_manager, h]
      · by_cases h1 : heap.grants sizeof_PageManager = true
        · simp [initialize_page_manager, malloc_ints, h, h1]
        · simp [initialize_page_manager, h1]
  · rintro ⟨h1, h2⟩
    obtain ⟨m, hm⟩ := initialize_granted heap c hhi h1 h2
    obtain ⟨hmax, hcur, -⟩ := fresh_manager_shape heap c m hm
    exact ⟨m, hm, hmax, hcur⟩

theorem initialize_page_manager_fails_only_on_malloc_witness :
    INT_MIN ≤ 2 ∧ (2 : Int) ≤ INT_MAX ∧
      ((initialize_page_manager zeroed_heap 2 = some none ↔
          (zeroed_heap.grants sizeof_PageManager = false ∨
            zeroed_heap.grants (free_pages_bytes 2) = false)) ∧
        ((zeroed_heap.grants sizeof_PageManager = true ∧
            zeroed_heap.grants (free_pages_bytes 2) = true) →
          ∃ m, initialize_page_manager zeroed_heap 2 = some (some m) ∧ m.max_page = 2 ∧
            m.next_free_page = FIRST_FREE_PAGE) ∧
        ((2 : Int) < 0 → 2 ^ 63 ≤ free_pages_bytes 2)) :=
  ⟨by decide, by decide,
    initialize_page_manager_fails_only_on_malloc zeroed_heap 2 (by decide) (by decide)⟩

/-! ## Claims about allocation from a fresh manager -/

/-- C1 (failing input, capacity 3): on the manager returned by
`initialize_page_manager(3)` the first `get_next_free_page` returns the
reserved identifier 1 and the second returns 0, not `-1`. -/
theorem fresh_capacity_3_gets_reserved_pages :
    initialize_page_manager zeroed_heap 3
        = some (some { free_pages := some [0, 1, 2], max_page := 3, next_free_page := 2 }) ∧
      run_calls (some { free_pages := some [0, 1, 2], max_page := 3, next_free_page := 2 })
          [Call.get, Call.get]
        = some (some { free_pages := some [0, 1, 2], max_page := 3, next_free_page := 0 },
            [Event.got 1, Event.got 0]) := by
  decide

set_option maxRecDepth 100000 in
/-- C6 (failing input, capacity 100): the first three `get_next_free_page`
calls on a fresh manager return 1, 0 and `-1`, where ascending first-time
allocation from the first non-reserved identifier would give 2, 3 and 4. -/
theorem fresh_capacity_100_allocation_order :
    ((initialize_page_manager zeroed_heap MAX_PAGE).bind
        (fun pm => run_calls pm [Call.get, Call.get, Call.get])).map
        (fun r => returned_values r.2) = some [1, 0, -1] ∧
      ((initialize_page_manager zeroed_heap MAX_PAGE).bind
        (fun pm => get_next_free_page pm)).map (fun r => r.2) ≠ some 2 := by
  decide

/-! ## Single calls on a well-formed manager -/

theorem release_page_full (m : PageManager) (id : Int) (h : m.max_page ≤ m.next_free_page) :
    release_page (some m) id = some (some m) := by
  have hge : ¬ m.next_free_page < m.max_page := by omega
  unfold release_page
  cases hfp : m.free_pages with
  | none => simp only [hfp]
  | some fp => simp only [hfp, if_neg hge]

theorem release_page_accepted (m : PageManager) (fp : List Int) (id : Int)
    (hfp : m.free_pages = some fp) (hlen : m.max_page.toNat ≤ fp.length)
    (h0 : 0 ≤ m.next_free_page) (h1 : m.next_free_page < m.max_page) :
    release_page (some m) id
      = some (some { m with free_pages := some (fp.set m.next_free_page.toNat id),
                            next_free_page := m.next_free_page + 1 }) := by
  unfold release_page
  have h2 : m.next_free_page.toNat < fp.length := by omega
  simp [hfp, h0, h1, h2]

theorem get_next_free_page_pop (m : PageManager) (fp : List Int) (v : Int)
    (hfp : m.free_pages = some fp) (h0 : 0 < m.next_free_page)
    (hv : fp[(m.next_free_page - 1).toNat]? = some v) :
    get_next_free_page (some m)
      = some (some { m with next_free_page := m.next_free_page - 1 }, v) := by
  have hpos : m.next_free_page > 0 := h0
  unfold get_next_free_page
  simp only [hfp, if_pos hpos, hv]

theorem get_next_free_page_exhausted (m : PageManager) (h : m.next_free_page ≤ 0) :
    get_next_free_page (some m) = some (some m, -1) := by
  have hle : ¬ m.next_free_page > 0 := by omega
  unfold get_next_free_page
  cases hfp : m.free_pages with
  | none => simp only [hfp]
  | some fp => simp only [hfp, if_neg hle]

theorem release_then_get (m : PageManager) (fp : List Int) (id : Int)
    (hlen : m.max_page.toNat ≤ fp.length)
    (h0 : 0 ≤ m.next_free_page) (h1 : m.next_free_page < m.max_page) :
    get_next_free_page
        (some { m with free_pages := some (fp.set m.next_free_page.toNat id),
                       next_free_page := m.next_free_page + 1 })
      = some (some { m with free_pages := some (fp.set m.next_free_page.toNat id) }, id) := by
  have h2 : m.next_free_page.toNat < fp.length := by omega
  rw [get_next_free_page_pop _ (fp.set m.next_free_page.toNat id) id rfl
    (by show 0 < m.next_free_page + 1; omega)
    (by show (fp.set m.next_free_page.toNat id)[(m.next_free_page + 1 - 1).toNat]? = some id
        simp [h2])]
  simp

/-! ## Claims about release -/

/-- C7 (counterexample): on the manager returned by
`initialize_page_manager(3)` the cursor is 2, below the capacity, so a release
is accepted; yet after `release_page(pm, 7)` and `release_page(pm, 9)` the next
two `get_next_free_page` calls return 7 and 1, not 9 and 7: the second release
found the free list full and was dropped. -/
theorem second_release_dropped_when_full :
    initialize_page_manager zeroed_heap 3
        = some (some { free_pages := some [0, 1, 2], max_page := 3, next_free_page := 2 }) ∧
      run_calls (some { free_pages := some [0, 1, 2], max_page := 3, next_free_page := 2 })
          [Call.release 7, Call.release 9, Call.get, Call.get]
        = some (some { free_pages := some [0, 1, 7], max_page := 3, next_free_page := 1 },
            [Event.released 7, Event.released 9, Event.got 7, Event.got 1]) := by
  decide

/-- C7 (amended): on a well-formed manager whose cursor is below `max_page`,
`release_page(pm, a)` immediately followed by `get_next_free_page(pm)` returns
`a`; when both releases are accepted (`next_free_page + 1 < max_page`),
releasing `a` then `b` makes the next two `get_next_free_page` calls return `b`
then `a`. -/
theorem release_get_is_lifo (m : PageManager) (a b : Int) (hwf : well_formed m) :
    (m.next_free_page < m.max_page →
        ∃ pm1, run_calls (some m) [Call.release a, Call.get]
          = some (pm1, [Event.released a, Event.got a])) ∧
      (m.next_free_page + 1 < m.max_page →
        ∃ pm1, run_calls (some m) [Call.release a, Call.release b, Call.get, Call.get]
          = some (pm1, [Event.released a, Event.released b, Event.got b, Event.got a])) := by
  obtain ⟨fp, hfp, hlen, h0⟩ := hwf
  constructor
  · intro h1
    simp [run_calls, release_page_accepted m fp a hfp hlen h0 h1,
      release_then_get m fp a hlen h0 h1]
  · intro h1
    have ha := release_page_accepted m fp a hfp hlen h0 (by omega)
    have hb := release_page_accepted
      { m with free_pages := some (fp.set m.next_free_page.toNat a),
               next_free_page := m.next_free_page + 1 }
      (fp.set m.next_free_page.toNat a) b rfl (by simpa using hlen)
      (by show 0 ≤ m.next_free_page + 1; omega)
      (by show m.next_free_page + 1 < m.max_page; omega)
    have hgb := release_then_get
      { m with free_pages := some (fp.set m.next_free_page.toNat a),
               next_free_page := m.next_free_page + 1 }
      (fp.set m.next_free_page.toNat a) b (by simpa using hlen)
      (by show 0 ≤ m.next_free_page + 1; omega)
      (by show m.next_free_page + 1 < m.max_page; omega)
    have hga := get_next_free_page_pop
      { m with free_pages :=
                 some ((fp.set m.next_free_page.toNat a).set (m.next_free_page + 1).toNat b),
               next_free_page := m.next_free_page + 1 }
      ((fp.set m.next_free_page.toNat a).set (m.next_free_page + 1).toNat b) a rfl
      (by show 0 < m.next_free_page + 1; omega)
      (by
        show ((fp.set m.next_free_page.toNat a).set (m.next_free_page + 1).toNat b)[
          (m.next_free_page + 1 - 1).toNat]? = some a
        have hne : (m.next_free_page + 1).toNat ≠ m.next_free_page.toNat := by omega
        have hlt : m.next_free_page.toNat < fp.length := by omega
        simp [List.getElem?_set, hne, hlt])
    simp only [run_calls, ha, hb]
    simp only [hgb, hga]
    exact ⟨_, rfl⟩

theorem release_get_is_lifo_witness :
    well_formed { free_pages := some [0, 1, 2, 3], max_page := 4, next_free_page := 2 } ∧
      (((2 : Int) < 4 →
        ∃ pm1, run_calls
            (some { free_pages := some [0, 1, 2, 3], max_page := 4, next_free_page := 2 })
            [Call.release 7, Call.get]
          = some (pm1, [Event.released 7, Event.got 7])) ∧
      ((2 : Int) + 1 < 4 →
        ∃ pm1, run_calls
            (some { free_pages := some [0, 1, 2, 3], max_page := 4, next_free_page := 2 })
            [Call.release 7, Call.release 9, Call.get, Call.get]
          = some (pm1, [Event.released 7, Event.released 9, Event.got 9, Event.got 7]))) :=
  ⟨⟨[0, 1, 2, 3], rfl, by decide, by decide⟩,
    release_get_is_lifo { free_pages := some [0, 1, 2, 3], max_page := 4, next_free_page := 2 }
      7 9 ⟨[0, 1, 2, 3], rfl, by decide, by decide⟩⟩

/-- C4 (counterexample): on the manager returned by
`initialize_page_manager(4)`, two successive `release_page(pm, 2)` calls are
both carried out: the second stores 2 a second time and moves the cursor
again. -/
theorem double_release_is_stored_twice :
    initialize_page_manager zeroed_heap 4
        = some (some { free_pages := some [0, 1, 2, 3], max_page := 4, next_free_page := 2 }) ∧
      release_page (some { free_pages := some [0, 1, 2, 3], max_page := 4, next_free_page := 2 }) 2
        = some (some { free_pages := some [0, 1, 2, 3], max_page := 4, next_free_page := 3 }) ∧
      release_page (some { free_pages := some [0, 1, 2, 3], max_page := 4, next_free_page := 3 }) 2
        = some (some { free_pages := some [0, 1, 2, 2], max_page := 4, next_free_page := 4 }) := by
  decide

/-- C4 (amended): `release_page` returns no status. On a well-formed manager,
the second of two successive `release_page(pm, id)` calls leaves the manager
unchanged exactly when the free list is full after the first call
(`next_free_page >= max_page`); otherwise it stores `id` in the next slot and
advances the cursor, and when both calls are accepted `id` occupies two
consecutive slots of the free list. -/
theorem double_release_effect (m : PageManager) (id : Int) (hwf : well_formed m) :
    ∃ m1 m2, release_page (some m) id = some (some m1) ∧
      release_page (some m1) id = some (some m2) ∧
      (m1.max_page ≤ m1.next_free_page → m2 = m1) ∧
      (m1.next_free_page < m1.max_page →
        m2.next_free_page = m1.next_free_page + 1 ∧
          ∃ fp2, m2.free_pages = some fp2 ∧ fp2[m1.next_free_page.toNat]? = some id) ∧
      (m.next_free_page + 1 < m.max_page →
        m2.next_free_page = m.next_free_page + 2 ∧
          ∃ fp2, m2.free_pages = some fp2 ∧ fp2[m.next_free_page.toNat]? = some id ∧
            fp2[m.next_free_page.toNat + 1]? = some id) := by
  obtain ⟨fp, hfp, hlen, h0⟩ := hwf
  by_cases h1 : m.next_free_page < m.max_page
  · have ha := release_page_accepted m fp id hfp hlen h0 h1
    have hlt : m.next_free_page.toNat < fp.length := by omega
    by_cases h2 : m.next_free_page + 1 < m.max_page
    · have hb := release_page_accepted
        { m with free_pages := some (fp.set m.next_free_page.toNat id),
                 next_free_page := m.next_free_page + 1 }
        (fp.set m.next_free_page.toNat id) id rfl (by simpa using hlen)
        (by show 0 ≤ m.next_free_page + 1; omega)
        (by show m.next_free_page + 1 < m.max_page; omega)
      have hidx : (m.next_free_page + 1).toNat = m.next_free_page.toNat + 1 := by omega
      have hlt2 : m.next_free_page.toNat + 1 < fp.length := by omega
      refine ⟨_, _, ha, hb, ?_, ?_, ?_⟩
      · intro hfull
        exact absurd h2 (by simpa using hfull)
      · intro _
        refine ⟨rfl, _, rfl, ?_⟩
        simp [hidx, hlt2]
      · intro _
        refine ⟨by show m.next_free_page + 1 + 1 = m.next_free_page + 2; omega, _, rfl, ?_, ?_⟩
        · simp [hidx, List.getElem?_set, hlt]
        · simp [hidx, hlt2]
    · have hb := release_page_full
        { m with free_pages := some (fp.set m.next_free_page.toNat id),
                 next_free_page := m.next_free_page + 1 } id
        (by show m.max_page ≤ m.next_free_page + 1; omega)
      refine ⟨_, _, ha, hb, fun _ => rfl, ?_, fun h => absurd h h2⟩
      intro hacc
      exact absurd (show m.next_free_page + 1 < m.max_page from hacc) h2
  · have ha := release_page_full m id (by omega)
    refine ⟨m, m, ha, ha, fun _ => rfl, fun h => absurd h h1, fun h => ?_⟩
    omega

theorem double_release_effect_witness :
    well_formed { free_pages := some [0, 1, 2, 3], max_page := 4, next_free_page := 2 } ∧
      ∃ m1 m2,
        release_page (some { free_pages := some [0, 1, 2, 3], max_page := 4, next_free_page := 2 }) 2
          = some (some m1) ∧
        release_page (some m1) 2 = some (some m2) ∧
        (m1.max_page ≤ m1.next_free_page → m2 = m1) ∧
        (m1.next_free_page < m1.max_page →
          m2.next_free_page = m1.next_free_page + 1 ∧
            ∃ fp2, m2.free_pages = some fp2 ∧ fp2[m1.next_free_page.toNat]? = some 2) ∧
        ((2 : Int) + 1 < 4 →
          m2.next_free_page = 2 + 2 ∧
            ∃ fp2, m2.free_pages = some fp2 ∧ fp2[(2 : Int).toNat]? = some 2 ∧
              fp2[(2 : Int).toNat + 1]? = some 2) :=
  ⟨⟨[0, 1, 2, 3], rfl, by decide, by decide⟩,
    double_release_effect { free_pages := some [0, 1, 2, 3], max_page := 4, next_free_page := 2 }
      2 ⟨[0, 1, 2, 3], rfl, by decide, by decide⟩⟩

/-- C5 (counterexample): on the manager returned by
`initialize_page_manager(3)`, `release_page(pm, 0)` is carried out: the
reserved identifier 0 is stored in the free list, the cursor moves, and the
next `get_next_free_page` returns 0. -/
theorem release_of_reserved_id_is_accepted :
    initialize_page_manager zeroed_heap 3
        = some (some { free_pages := some [0, 1, 2], max_page := 3, next_free_page := 2 }) ∧
      release_page (some { free_pages := some [0, 1, 2], max_page := 3, next_free_page := 2 }) 0
        = some (some { free_pages := some [0, 1, 0], max_page := 3, next_free_page := 3 }) ∧
      get_next_free_page (some { free_pages := some [0, 1, 0], max_page := 3, next_free_page := 3 })
        = some (some { free_pages := some [0, 1, 0], max_page := 3, next_free_page := 2 }, 0) := by
  decide

/-- C5 (amended): `release_page` does not examine its argument. On a
well-formed manager and for every `id` (negative, at least `max_page`, 0 and 1
included) the free list and the cursor are unchanged only when the free list
is full (`next_free_page >= max_page`); while `next_free_page < max_page` the
call stores `id` at the cursor, advances the cursor, and the next
`get_next_free_page` returns `id`. -/
theorem release_page_ignores_id_validity (m : PageManager) (id : Int) (hwf : well_formed m) :
    (m.max_page ≤ m.next_free_page → release_page (some m) id = some (some m)) ∧
      (m.next_free_page < m.max_page →
        ∃ m1 m2, release_page (some m) id = some (some m1) ∧
          m1.next_free_page = m.next_free_page + 1 ∧
          (∃ fp1, m1.free_pages = some fp1 ∧ fp1[m.next_free_page.toNat]? = some id) ∧
          get_next_free_page (some m1) = some (some m2, id)) := by
  obtain ⟨fp, hfp, hlen, h0⟩ := hwf
  refine ⟨release_page_full m id, ?_⟩
  intro h1
  have hlt : m.next_free_page.toNat < fp.length := by omega
  refine ⟨_, _, release_page_accepted m fp id hfp hlen h0 h1, rfl, ⟨_, rfl, ?_⟩,
    release_then_get m fp id hlen h0 h1⟩
  simp [hlt]

theorem release_page_ignores_id_validity_witness :
    well_formed { free_pages := some [0, 1, 2], max_page := 3, next_free_page := 2 } ∧
      (((3 : Int) ≤ 2 →
        release_page (some { free_pages := some [0, 1, 2], max_page := 3, next_free_page := 2 })
          (-5) = some (some { free_pages := some [0, 1, 2], max_page := 3, next_free_page := 2 })) ∧
      ((2 : Int) < 3 →
        ∃ m1 m2,
          release_page (some { free_pages := some [0, 1, 2], max_page := 3, next_free_page := 2 })
            (-5) = some (some m1) ∧
          m1.next_free_page = 2 + 1 ∧
          (∃ fp1, m1.free_pages = some fp1 ∧ fp1[(2 : Int).toNat]? = some (-5)) ∧
          get_next_free_page (some m1) = some (some m2, -5))) :=
  ⟨⟨[0, 1, 2], rfl, by decide, by decide⟩,
    release_page_ignores_id_validity
      { free_pages := some [0, 1, 2], max_page := 3, next_free_page := 2 } (-5)
      ⟨[0, 1, 2], rfl, by decide, by decide⟩⟩

/-! ## Call sequences: totality and the allocation invariant -/

theorem take_succ_of_getElem? (l : List Int) (n : Nat) (v : Int) (h : l[n]? = some v) :
    l.take (n + 1) = l.take n ++ [v] := by
  rw [List.take_succ, h]
  rfl

theorem take_succ_set (l : List Int) (n : Nat) (a : Int) (h : n < l.length) :
    (l.set n a).take (n + 1) = l.take n ++ [a] := by
  rw [take_succ_of_getElem? (l.set n a) n a (by simp [h])]
  congr 1
  apply List.ext_getElem?
  intro i
  rw [List.getElem?_take, List.getElem?_take]
  split
  · rw [List.getElem?_set_ne (by omega)]
  · rfl

theorem get_keeps_cursor_in_bounds (m : PageManager) (h : cursor_in_bounds m) :
    ∃ m1 r, get_next_free_page (some m) = some (some m1, r) ∧ cursor_in_bounds m1 := by
  obtain ⟨fp, hfp, hlen, h0, h1⟩ := h
  by_cases hpos : 0 < m.next_free_page
  · have hlt : (m.next_free_page - 1).toNat < fp.length := by omega
    have hv : fp[(m.next_free_page - 1).toNat]? = some (fp[(m.next_free_page - 1).toNat]) :=
      List.getElem?_eq_getElem hlt
    refine ⟨_, _, get_next_free_page_pop m fp _ hfp hpos hv, fp, hfp, hlen, ?_, ?_⟩
    · show 0 ≤ m.next_free_page - 1
      omega
    · show m.next_free_page - 1 ≤ m.max_page
      omega
  · exact ⟨m, -1, get_next_free_page_exhausted m (by omega), fp, hfp, hlen, h0, h1⟩

theorem release_keeps_cursor_in_bounds (m : PageManager) (id : Int) (h : cursor_in_bounds m) :
    ∃ m1, release_page (some m) id = some (some m1) ∧ cursor_in_bounds m1 := by
  obtain ⟨fp, hfp, hlen, h0, h1⟩ := h
  by_cases hacc : m.next_free_page < m.max_page
  · refine ⟨_, release_page_accepted m fp id hfp hlen h0 hacc, _, rfl, by simpa using hlen, ?_, ?_⟩
    · show 0 ≤ m.next_free_page + 1
      omega
    · show m.next_free_page + 1 ≤ m.max_page
      omega
  · exact ⟨m, release_page_full m id (by omega), fp, hfp, hlen, h0, h1⟩

theorem run_calls_total (calls : List Call) (m : PageManager) (h : cursor_in_bounds m) :
    ∃ m1 evs, run_calls (some m) calls = some (some m1, evs) := by
  induction calls generalizing m with
  | nil => exact ⟨m, [], rfl⟩
  | cons call rest ih =>
    cases call with
    | get =>
      obtain ⟨m1, r, hget, hb⟩ := get_keeps_cursor_in_bounds m h
      obtain ⟨m2, evs, hrun⟩ := ih m1 hb
      exact ⟨m2, Event.got r :: evs, by simp [run_calls, hget, hrun]⟩
    | release id =>
      obtain ⟨m1, hrel, hb⟩ := release_keeps_cursor_in_bounds m id h
      obtain ⟨m2, evs, hrun⟩ := ih m1 hb
      exact ⟨m2, Event.released id :: evs, by simp [run_calls, hrel, hrun]⟩

theorem get_keeps_free_region_disjoint (m m1 : PageManager) (held : List Int) (r : Int)
    (h : free_region_disjoint m held)
    (hget : get_next_free_page (some m) = some (some m1, r)) :
    (r = -1 ∨ r ∉ held) ∧ free_region_disjoint m1 (held_after held (Event.got r)) := by
  obtain ⟨fp, hfp, hlen, h0, h1, hnd, hdis, hneg⟩ := h
  by_cases hpos : 0 < m.next_free_page
  · have hlt : (m.next_free_page - 1).toNat < fp.length := by omega
    have hv : fp[(m.next_free_page - 1).toNat]? = some (fp[(m.next_free_page - 1).toNat]) :=
      List.getElem?_eq_getElem hlt
    rw [get_next_free_page_pop m fp _ hfp hpos hv] at hget
    simp only [Option.some.injEq, Prod.mk.injEq] at hget
    obtain ⟨hm1, hr⟩ := hget
    subst hm1
    have hidx : m.next_free_page.toNat = (m.next_free_page - 1).toNat + 1 := by omega
    have htake := take_succ_of_getElem? fp (m.next_free_page - 1).toNat _ hv
    rw [← hidx, hr] at htake
    rw [htake] at hnd hdis
    rw [List.nodup_append] at hnd
    obtain ⟨hnd1, -, hdj⟩ := hnd
    have hr_mem : r ∈ fp.take (m.next_free_page - 1).toNat ++ [r] := by simp
    have hr_ok := hdis r hr_mem
    refine ⟨Or.inr hr_ok.1, fp, hfp, hlen, ?_, ?_, hnd1, ?_, ?_⟩
    · show 0 ≤ m.next_free_page - 1
      omega
    · show m.next_free_page - 1 ≤ m.max_page
      omega
    · intro x hx
      have hx_ok := hdis x (List.mem_append_left _ hx)
      have hxr : x ≠ r := fun hxr => hdj hx (by simp [hxr])
      simp [held_after, hr_ok.2, hx_ok.1, hx_ok.2, hxr]
    · simp only [held_after, if_neg hr_ok.2, List.mem_cons, not_or]
      exact ⟨fun hc => hr_ok.2 hc.symm, hneg⟩
  · rw [get_next_free_page_exhausted m (by omega)] at hget
    simp only [Option.some.injEq, Prod.mk.injEq] at hget
    obtain ⟨hm1, hr⟩ := hget
    subst hm1 hr
    refine ⟨Or.inl rfl, fp, hfp, hlen, h0, h1, hnd, ?_, ?_⟩
    · simpa [held_after] using hdis
    · simpa [held_after] using hneg

theorem release_keeps_free_region_disjoint (m m1 : PageManager) (held : List Int) (id : Int)
    (h : free_region_disjoint m held) (hheld : id ∈ held)
    (hrel : release_page (some m) id = some (some m1)) :
    free_region_disjoint m1 (held_after held (Event.released id)) := by
  obtain ⟨fp, hfp, hlen, h0, h1, hnd, hdis, hneg⟩ := h
  have hid : id ≠ -1 := fun hc => hneg (hc ▸ hheld)
  by_cases hacc : m.next_free_page < m.max_page
  · rw [release_page_accepted m fp id hfp hlen h0 hacc] at hrel
    simp only [Option.some.injEq] at hrel
    subst hrel
    have hlt : m.next_free_page.toNat < fp.length := by omega
    have hidx : (m.next_free_page + 1).toNat = m.next_free_page.toNat + 1 := by omega
    have htake := take_succ_set fp m.next_free_page.toNat id hlt
    refine ⟨_, rfl, by simpa using hlen, ?_, ?_, ?_, ?_, ?_⟩
    · show 0 ≤ m.next_free_page + 1
      omega
    · show m.next_free_page + 1 ≤ m.max_page
      omega
    · show ((fp.set m.next_free_page.toNat id).take (m.next_free_page + 1).toNat).Nodup
      rw [hidx, htake, List.nodup_append]
      refine ⟨hnd, List.nodup_singleton id, ?_⟩
      intro x hx hx2
      have : x = id := by simpa using hx2
      exact (hdis x hx).1 (this ▸ hheld)
    · show ∀ x ∈ (fp.set m.next_free_page.toNat id).take (m.next_free_page + 1).toNat, _
      rw [hidx, htake]
      intro x hx
      rcases List.mem_append.1 hx with hx1 | hx1
      · have hx_ok := hdis x hx1
        simp [held_after, hx_ok.1, hx_ok.2]
      · have : x = id := by simpa using hx1
        subst this
        simp [held_after, hid]
    · simp [held_after, hneg]
  · rw [release_page_full m id (by omega)] at hrel
    simp only [Option.some.injEq] at hrel
    subst hrel
    refine ⟨fp, hfp, hlen, h0, h1, hnd, ?_, ?_⟩
    · intro x hx
      have hx_ok := hdis x hx
      simp [held_after, hx_ok.1, hx_ok.2]
    · simp [held_after, hneg]

theorem free_region_disjoint_in_bounds (m : PageManager) (held : List Int)
    (h : free_region_disjoint m held) : cursor_in_bounds m := by
  obtain ⟨fp, hfp, hlen, h0, h1, -⟩ := h
  exact ⟨fp, hfp, hlen, h0, h1⟩

theorem disciplined_run_no_double (calls : List Call) (m : PageManager) (held : List Int)
    (pm1 : Option PageManager) (evs : List Event)
    (h : free_region_disjoint m held)
    (hrun : run_calls (some m) calls = some (pm1, evs))
    (hdisc : releases_only_held held evs) :
    no_double_allocation held evs := by
  induction calls generalizing m held evs with
  | nil =>
    simp only [run_calls, Option.some.injEq, Prod.mk.injEq] at hrun
    rw [← hrun.2]
    trivial
  | cons call rest ih =>
    cases call with
    | get =>
      obtain ⟨m1, r, hget, -⟩ :=
        get_keeps_cursor_in_bounds m (free_region_disjoint_in_bounds m held h)
      obtain ⟨hr, hinv⟩ := get_keeps_free_region_disjoint m m1 held r h hget
      simp only [run_calls, hget] at hrun
      cases hrest : run_calls (some m1) rest with
      | none => simp [hrest] at hrun
      | some res =>
        obtain ⟨pm2, evs1⟩ := res
        simp only [hrest, Option.some.injEq, Prod.mk.injEq] at hrun
        obtain ⟨hpm, hevs⟩ := hrun
        subst hevs
        exact ⟨hr, ih m1 _ evs1 hinv (hpm ▸ hrest) hdisc⟩
    | release id =>
      obtain ⟨m1, hrel, -⟩ :=
        release_keeps_cursor_in_bounds m id (free_region_disjoint_in_bounds m held h)
      simp only [run_calls, hrel] at hrun
      cases hrest : run_calls (some m1) rest with
      | none => simp [hrest] at hrun
      | some res =>
        obtain ⟨pm2, evs1⟩ := res
        simp only [hrest, Option.some.injEq, Prod.mk.injEq] at hrun
        obtain ⟨hpm, hevs⟩ := hrun
        subst hevs
        obtain ⟨hheld, hdisc1⟩ := hdisc
        have hinv := release_keeps_free_region_disjoint m m1 held id h hheld hrel
        exact ih m1 _ evs1 hinv (hpm ▸ hrest) hdisc1

theorem fresh_manager_free_region (heap : Heap) (c : Int) (m : PageManager) (hc : 2 ≤ c)
    (h : initialize_page_manager heap c = some (some m)) :
    free_region_disjoint m [] := by
  obtain ⟨hmax, hcur, fp, hfp, hlen, hget⟩ := fresh_manager_shape heap c m h
  have h0 : fp[0]? = some (0 : Int) := by simpa using hget 0 (by omega)
  have h1 : fp[1]? = some (1 : Int) := by simpa using hget 1 (by omega)
  have htake : fp.take 2 = [0, 1] := by
    rw [take_succ_of_getElem? fp 1 1 h1, take_succ_of_getElem? fp 0 0 h0]
    rfl
  have hcur2 : m.next_free_page.toNat = 2 := by rw [hcur]; rfl
  refine ⟨fp, hfp, by rw [hmax]; exact hlen, by rw [hcur]; decide,
    by rw [hcur, hmax]; exact hc, ?_, ?_, by simp⟩
  · rw [hcur2, htake]
    decide
  · rw [hcur2, htake]
    intro x hx
    refine ⟨by simp, ?_⟩
    rcases List.mem_cons.1 hx with hx | hx
    · rw [hx]; decide
    · have : x = 1 := by simpa using hx
      rw [this]; decide

theorem upper_cells_released_in_bounds (m : PageManager) (rel : List Int)
    (h : upper_cells_released m rel) : cursor_in_bounds m := by
  obtain ⟨fp, hfp, hlen, h0, h1, -⟩ := h
  exact ⟨fp, hfp, hlen, h0, h1⟩

theorem upper_cells_released_mono (m : PageManager) (rel rel1 : List Int)
    (h : upper_cells_released m rel) (hsub : ∀ x, x ∈ rel → x ∈ rel1) :
    upper_cells_released m rel1 := by
  obtain ⟨fp, hfp, hlen, h0, h1, hcells⟩ := h
  refine ⟨fp, hfp, hlen, h0, h1, ?_⟩
  intro i hi hi2
  obtain ⟨v, hv, hmem⟩ := hcells i hi hi2
  exact ⟨v, hv, hsub v hmem⟩

theorem get_keeps_upper_cells_released (m m1 : PageManager) (rel : List Int) (r : Int)
    (h : upper_cells_released m rel)
    (hget : get_next_free_page (some m) = some (some m1, r)) :
    upper_cells_released m1 rel ∧ (FIRST_FREE_PAGE < m.next_free_page → r ∈ rel) := by
  obtain ⟨fp, hfp, hlen, h0, h1, hcells⟩ := h
  by_cases hpos : 0 < m.next_free_page
  · have hlt : (m.next_free_page - 1).toNat < fp.length := by omega
    have hv : fp[(m.next_free_page - 1).toNat]? = some (fp[(m.next_free_page - 1).toNat]) :=
      List.getElem?_eq_getElem hlt
    rw [get_next_free_page_pop m fp _ hfp hpos hv] at hget
    simp only [Option.some.injEq, Prod.mk.injEq] at hget
    obtain ⟨hm1, hr⟩ := hget
    subst hm1
    constructor
    · refine ⟨fp, hfp, hlen, ?_, ?_, ?_⟩
      · show 0 ≤ m.next_free_page - 1
        omega
      · show m.next_free_page - 1 ≤ m.max_page
        omega
      · intro i hi hi2
        exact hcells i hi (by
          have : i < (m.next_free_page - 1).toNat := hi2
          omega)
    · intro habove
      have h2 : FIRST_FREE_PAGE.toNat = 2 := rfl
      have habove2 : 2 < m.next_free_page := habove
      obtain ⟨v, hv2, hmem⟩ := hcells (m.next_free_page - 1).toNat (by omega) (by omega)
      rw [hv] at hv2
      simp only [Option.some.injEq] at hv2
      rw [← hr, hv2]
      exact hmem
  · rw [get_next_free_page_exhausted m (by omega)] at hget
    simp only [Option.some.injEq, Prod.mk.injEq] at hget
    obtain ⟨hm1, -⟩ := hget
    subst hm1
    refine ⟨⟨fp, hfp, hlen, h0, h1, hcells⟩, ?_⟩
    intro habove
    have habove2 : 2 < m.next_free_page := habove
    omega

theorem release_keeps_upper_cells_released (m m1 : PageManager) (rel : List Int) (id : Int)
    (h : upper_cells_released m rel)
    (hrel : release_page (some m) id = some (some m1)) :
    upper_cells_released m1 (id :: rel) := by
  obtain ⟨fp, hfp, hlen, h0, h1, hcells⟩ := h
  by_cases hacc : m.next_free_page < m.max_page
  · rw [release_page_accepted m fp id hfp hlen h0 hacc] at hrel
    simp only [Option.some.injEq] at hrel
    subst hrel
    have hlt : m.next_free_page.toNat < fp.length := by omega
    refine ⟨_, rfl, by simpa using hlen, ?_, ?_, ?_⟩
    · show 0 ≤ m.next_free_page + 1
      omega
    · show m.next_free_page + 1 ≤ m.max_page
      omega
    · intro i hi hi2
      have hi3 : i < (m.next_free_page + 1).toNat := hi2
      by_cases heq : m.next_free_page.toNat = i
      · refine ⟨id, ?_, List.mem_cons_self _ _⟩
        rw [← heq]
        simp [hlt]
      · obtain ⟨v, hv, hmem⟩ := hcells i hi (by omega)
        refine ⟨v, ?_, List.mem_cons_of_mem _ hmem⟩
        rw [List.getElem?_set_ne heq]
        exact hv
  · rw [release_page_full m id (by omega)] at hrel
    simp only [Option.some.injEq] at hrel
    subst hrel
    exact upper_cells_released_mono m rel (id :: rel) ⟨fp, hfp, hlen, h0, h1, hcells⟩
      (fun x hx => List.mem_cons_of_mem _ hx)

theorem run_keeps_upper_cells_released (calls : List Call) (m m1 : PageManager)
    (rel : List Int) (evs : List Event)
    (h : upper_cells_released m rel)
    (hrun : run_calls (some m) calls = some (some m1, evs)) :
    upper_cells_released m1 (released_values evs ++ rel) := by
  induction calls generalizing m rel evs with
  | nil =>
    simp only [run_calls, Option.some.injEq, Prod.mk.injEq] at hrun
    obtain ⟨hm, hevs⟩ := hrun
    subst hm hevs
    exact h
  | cons call rest ih =>
    cases call with
    | get =>
      obtain ⟨m2, r, hget, -⟩ :=
        get_keeps_cursor_in_bounds m (upper_cells_released_in_bounds m rel h)
      have hinv := (get_keeps_upper_cells_released m m2 rel r h hget).1
      simp only [run_calls, hget] at hrun
      cases hrest : run_calls (some m2) rest with
      | none => simp [hrest] at hrun
      | some res =>
        obtain ⟨pm3, evs1⟩ := res
        simp only [hrest, Option.some.injEq, Prod.mk.injEq] at hrun
        obtain ⟨hpm, hevs⟩ := hrun
        subst hpm hevs
        exact ih m2 rel evs1 hinv hrest
    | release id =>
      obtain ⟨m2, hrel, -⟩ :=
        release_keeps_cursor_in_bounds m id (upper_cells_released_in_bounds m rel h)
      have hinv := release_keeps_upper_cells_released m m2 rel id h hrel
      simp only [run_calls, hrel] at hrun
      cases hrest : run_calls (some m2) rest with
      | none => simp [hrest] at hrun
      | some res =>
        obtain ⟨pm3, evs1⟩ := res
        simp only [hrest, Option.some.injEq, Prod.mk.injEq] at hrun
        obtain ⟨hpm, hevs⟩ := hrun
        subst hpm hevs
        refine upper_cells_released_mono m1 _ _ (ih m2 (id :: rel) evs1 hinv hrest) ?_
        intro x hx
        simp only [released_values, List.mem_append, List.mem_cons] at hx ⊢
        tauto

theorem fresh_manager_upper_cells (heap : Heap) (c : Int) (m : PageManager) (hc : 2 ≤ c)
    (h : initialize_page_manager heap c = some (some m)) :
    upper_cells_released m [] := by
  obtain ⟨fp, hfp, hlen, h0, h1, -⟩ := fresh_manager_free_region heap c m hc h
  obtain ⟨-, hcur, -⟩ := fresh_manager_shape heap c m h
  refine ⟨fp, hfp, hlen, h0, h1, ?_⟩
  intro i hi hi2
  rw [hcur] at hi2
  omega

/-! ## Claims about call sequences -/

/-- C3 (counterexample): on the manager returned by
`initialize_page_manager(3)`, the calls get, release 1, release 1, get, get
return 1, 1 and 1: the last call returns identifier 1 while the client still
holds it from the call before. -/
theorem double_release_leads_to_double_allocation :
    initialize_page_manager zeroed_heap 3
        = some (some { free_pages := some [0, 1, 2], max_page := 3, next_free_page := 2 }) ∧
      run_calls (some { free_pages := some [0, 1, 2], max_page := 3, next_free_page := 2 })
          [Call.get, Call.release 1, Call.release 1, Call.get, Call.get]
        = some (some { free_pages := some [0, 1, 1], max_page := 3, next_free_page := 1 },
            [Event.got 1, Event.released 1, Event.released 1, Event.got 1, Event.got 1]) ∧
      ¬ no_double_allocation []
          [Event.got 1, Event.released 1, Event.released 1, Event.got 1, Event.got 1] := by
  decide

/-- C3 (amended): for every capacity `c > 2` and every finite sequence of
`get_next_free_page` / `release_page` calls on a freshly initialised manager,
the sequence runs to completion, and if every `release_page` call passes an
identifier the client holds at that moment (returned by an earlier
`get_next_free_page` and not released since), then `get_next_free_page` never
returns an identifier that is currently held. -/
theorem no_double_allocation_for_disciplined_clients (heap : Heap) (c : Int)
    (m : PageManager) (calls : List Call) (hc : 2 < c)
    (hinit : initialize_page_manager heap c = some (some m)) :
    ∃ m1 evs, run_calls (some m) calls = some (some m1, evs) ∧
      (releases_only_held [] evs → no_double_allocation [] evs) := by
  have hinv := fresh_manager_free_region heap c m (by omega) hinit
  obtain ⟨m1, evs, hrun⟩ :=
    run_calls_total calls m (free_region_disjoint_in_bounds m [] hinv)
  exact ⟨m1, evs, hrun, disciplined_run_no_double calls m [] (some m1) evs hinv hrun⟩

theorem no_double_allocation_for_disciplined_clients_witness :
    (2 : Int) < 3 ∧
      initialize_page_manager zeroed_heap 3
        = some (some { free_pages := some [0, 1, 2], max_page := 3, next_free_page := 2 }) ∧
      releases_only_held []
        [Event.got 1, Event.got 0, Event.released 1, Event.got 1, Event.got (-1)] ∧
      ∃ m1 evs,
        run_calls (some { free_pages := some [0, 1, 2], max_page := 3, next_free_page := 2 })
            [Call.get, Call.get, Call.release 1, Call.get, Call.get]
          = some (some m1, evs) ∧
        (releases_only_held [] evs → no_double_allocation [] evs) :=
  ⟨by decide, by decide, by decide,
    no_double_allocation_for_disciplined_clients zeroed_heap 3
      { free_pages := some [0, 1, 2], max_page := 3, next_free_page := 2 }
      [Call.get, Call.get, Call.release 1, Call.get, Call.get] (by decide) (by decide)⟩

/-- C2 (counterexample): on the manager returned by
`initialize_page_manager(3)`, `release_page(pm, 0)` followed by
`get_next_free_page(pm)` returns the reserved identifier 0. -/
theorem released_reserved_id_is_returned :
    initialize_page_manager zeroed_heap 3
        = some (some { free_pages := some [0, 1, 2], max_page := 3, next_free_page := 2 }) ∧
      run_calls (some { free_pages := some [0, 1, 2], max_page := 3, next_free_page := 2 })
          [Call.release 0, Call.get]
        = some (some { free_pages := some [0, 1, 0], max_page := 3, next_free_page := 2 },
            [Event.released 0, Event.got 0]) ∧
      returned_values [Event.released 0, Event.got 0] = [0] := by
  decide

/-- C2 (amended): for every capacity `c > 2` and every finite sequence of
`get_next_free_page` / `release_page` calls on a freshly initialised manager,
the sequence runs to completion, and a `get_next_free_page` call made after it
while the cursor is above `FIRST_FREE_PAGE` returns an identifier that was
passed to an earlier `release_page` call; so when no `release_page` call was
passed 0 or 1, such a call returns neither 0 nor 1. -/
theorem get_above_first_free_page_returns_released (heap : Heap) (c : Int)
    (m : PageManager) (calls : List Call) (hc : 2 < c)
    (hinit : initialize_page_manager heap c = some (some m)) :
    ∃ m1 evs m2 r, run_calls (some m) calls = some (some m1, evs) ∧
      get_next_free_page (some m1) = some (some m2, r) ∧
      (FIRST_FREE_PAGE < m1.next_free_page →
        r ∈ released_values evs ∧
          (0 ∉ released_values evs → 1 ∉ released_values evs → r ≠ 0 ∧ r ≠ 1)) := by
  have hinv := fresh_manager_upper_cells heap c m (by omega) hinit
  obtain ⟨m1, evs, hrun⟩ :=
    run_calls_total calls m (upper_cells_released_in_bounds m [] hinv)
  have hinv1 := run_keeps_upper_cells_released calls m m1 [] evs hinv hrun
  obtain ⟨m2, r, hget, -⟩ :=
    get_keeps_cursor_in_bounds m1 (upper_cells_released_in_bounds m1 _ hinv1)
  refine ⟨m1, evs, m2, r, hrun, hget, ?_⟩
  intro habove
  have hmem : r ∈ released_values evs := by
    simpa using (get_keeps_upper_cells_released m1 m2 _ r hinv1 hget).2 habove
  refine ⟨hmem, fun h0 h1 => ⟨?_, ?_⟩⟩
  · intro hr
    exact h0 (hr ▸ hmem)
  · intro hr
    exact h1 (hr ▸ hmem)

theorem get_above_first_free_page_returns_released_witness :
    (2 : Int) < 4 ∧
      initialize_page_manager zeroed_heap 4
        = some (some { free_pages := some [0, 1, 2, 3], max_page := 4, next_free_page := 2 }) ∧
      ∃ m1 evs m2 r,
        run_calls (some { free_pages := some [0, 1, 2, 3], max_page := 4, next_free_page := 2 })
            [Call.get, Call.release 1, Call.release 3] = some (some m1, evs) ∧
        get_next_free_page (some m1) = some (some m2, r) ∧
        (FIRST_FREE_PAGE < m1.next_free_page →
          r ∈ released_values evs ∧
            (0 ∉ released_values evs → 1 ∉ released_values evs → r ≠ 0 ∧ r ≠ 1)) :=
  ⟨by decide, by decide,
    get_above_first_free_page_returns_released zeroed_heap 4
      { free_pages := some [0, 1, 2, 3], max_page := 4, next_free_page := 2 }
      [Call.get, Call.release 1, Call.release 3] (by decide) (by decide)⟩

/-! ## Page I/O on the stream opened by `dal_open` -/

theorem dal_open_stream (dal : Dal) :
    dal_open dal true
      = { dal with fp := some { readable := false, writable := true, bytes := [], pos := 0 } } := by
  rfl

theorem fseek_set_readable (f : FILE) (offset : Int) :
    (fseek_set f offset).readable = f.readable := by
  unfold fseek_set
  split <;> rfl

theorem fwrite_one_keeps_mode (data : List Nat) (size : Nat) (f : FILE)
    (hlen : size ≤ data.length) :
    ∃ f1, fwrite_one data size f = some f1 ∧ f1.readable = f.readable := by
  unfold fwrite_one
  by_cases h : f.writable = false ∨ size = 0
  · rw [if_pos h]
    exact ⟨f, rfl, rfl⟩
  · rw [if_neg h, if_neg (by omega)]
    exact ⟨_, rfl, rfl⟩

theorem write_page_keeps_mode (page : Page) (dal : Dal) (f : FILE) (offset : Int)
    (hfp : dal.fp = some f) (hoff : int_mul page.id dal.page_size = some offset)
    (hlen : size_t_of_int dal.page_size ≤ page.data.length) :
    ∃ f1, write_page page dal = some { dal with fp := some f1 } ∧ f1.readable = f.readable := by
  obtain ⟨f1, hw, hmode⟩ :=
    fwrite_one_keeps_mode page.data (size_t_of_int dal.page_size) (fseek_set f offset) hlen
  refine ⟨f1, ?_, by rw [hmode, fseek_set_readable]⟩
  unfold write_page
  simp only [hfp, hoff, hw]

theorem read_page_on_write_only_stream (heap : Heap) (dal : Dal) (f : FILE)
    (page_number offset : Int)
    (hfp : dal.fp = some f) (hmode : f.readable = false)
    (hgrant : heap.grants sizeof_Page = true)
    (hsize : 0 ≤ dal.page_size - 1 ∧ (dal.page_size - 1).toNat < PAGE_DATA_LEN)
    (hoff : int_mul page_number dal.page_size = some offset) :
    read_page heap dal page_number
      = some ({ id := -1,
                data := ((List.range PAGE_DATA_LEN).map heap.byte_cell).set
                  (dal.page_size - 1).toNat 0 },
              { dal with fp := some (fseek_set f offset) }) := by
  unfold read_page allocate_empty_page
  simp only [hgrant, if_true, if_pos hsize, hfp, hoff]
  unfold fread_one
  rw [if_pos (Or.inl (by rw [fseek_set_readable]; exact hmode))]

theorem map_range_const (n : Nat) (c : Nat) :
    (List.range n).map (fun _ => c) = List.replicate n c := by
  apply List.ext_getElem?
  intro i
  by_cases hi : i < n
  · simp [hi]
  · simp [hi]

theorem write_at_read_back (bytes : List Nat) (pos : Nat) (chunk : List Nat) :
    ((write_at bytes pos chunk).drop pos).take chunk.length = chunk := by
  unfold write_at
  have hlen : ((bytes ++ List.replicate (pos - bytes.length) 0).take pos).length = pos := by
    rw [List.length_take, List.length_append, List.length_replicate]
    omega
  rw [List.append_assoc, List.drop_left' hlen, List.take_left' rfl]

theorem size_t_of_page_size (n : Int) (h0 : 0 ≤ n - 1) (h1 : (n - 1).toNat < PAGE_DATA_LEN) :
    size_t_of_int n = n.toNat := by
  unfold size_t_of_int SIZE_MODULUS
  unfold PAGE_DATA_LEN at h1
  have : n % ((2 ^ 64 : Nat) : Int) = n := by
    apply Int.emod_eq_of_lt <;> push_cast <;> omega
  rw [this]

/-- Round trip on a stream open for reading and writing: `write_page` followed
by `read_page` of the same page number returns the first `page_size` bytes of
the payload written. -/
theorem round_trip_on_update_stream (heap : Heap) (dal : Dal) (f : FILE) (page : Page)
    (offset : Int)
    (hfp : dal.fp = some f) (hread : f.readable = true) (hwrite : f.writable = true)
    (hgrant : heap.grants sizeof_Page = true)
    (hsize : 0 ≤ dal.page_size - 1 ∧ (dal.page_size - 1).toNat < PAGE_DATA_LEN)
    (hlen : page.data.length = PAGE_DATA_LEN)
    (hoff : int_mul page.id dal.page_size = some offset) (hpos : 0 ≤ offset) :
    ∃ dal1 p dal2, write_page page dal = some dal1 ∧
      read_page heap dal1 page.id = some (p, dal2) ∧
      p.data.take dal.page_size.toNat = page.data.take dal.page_size.toNat := by
  obtain ⟨rd, wr, bs, ps⟩ := f
  simp only at hread hwrite
  subst hread hwrite
  have hsz := size_t_of_page_size dal.page_size hsize.1 hsize.2
  have hne : ¬ dal.page_size.toNat = 0 := by omega
  have hle : ¬ page.data.length < dal.page_size.toNat := by rw [hlen]; omega
  have hseek : ∀ g : FILE, fseek_set g offset = { g with pos := offset.toNat } := by
    intro g
    unfold fseek_set
    rw [if_neg (by omega)]
  have hchunk : (page.data.take dal.page_size.toNat).length = dal.page_size.toNat := by
    rw [List.length_take, hlen]
    omega
  have hw : write_page page dal = some
      { dal with
        fp := some
          { readable := true, writable := true,
            bytes := write_at bs offset.toNat (page.data.take dal.page_size.toNat),
            pos := offset.toNat + dal.page_size.toNat } } := by
    unfold write_page
    simp only [hfp, hoff, hsz, hseek]
    unfold fwrite_one
    simp [hne, hle]
  have hback := write_at_read_back bs offset.toNat (page.data.take dal.page_size.toNat)
  rw [hchunk] at hback
  have hbuf : ¬ (((List.range PAGE_DATA_LEN).map heap.byte_cell).set
      (dal.page_size - 1).toNat 0).length < dal.page_size.toNat := by
    rw [List.length_set, List.length_map, List.length_range]
    omega
  have hr : read_page heap
      { dal with
        fp := some
          { readable := true, writable := true,
            bytes := write_at bs offset.toNat (page.data.take dal.page_size.toNat),
            pos := offset.toNat + dal.page_size.toNat } } page.id
      = some ({ id := -1,
                data := page.data.take dal.page_size.toNat ++
                  (((List.range PAGE_DATA_LEN).map heap.byte_cell).set
                    (dal.page_size - 1).toNat 0).drop dal.page_size.toNat },
              { dal with
                fp := some
                  { readable := true, writable := true,
                    bytes := write_at bs offset.toNat (page.data.take dal.page_size.toNat),
                    pos := offset.toNat + dal.page_size.toNat } }) := by
    unfold read_page allocate_empty_page
    simp only [hgrant, if_true, if_pos hsize, hoff, hsz, hseek]
    unfold fread_one
    simp only [Bool.true_eq_false, hne, or_self, if_false, hbuf, hback, hchunk]
  refine ⟨_, _, _, hw, hr, ?_⟩
  show ((page.data.take dal.page_size.toNat) ++ _).take dal.page_size.toNat = _
  rw [List.take_left' hchunk]

/-! ## Claims about page I/O -/

/-- C10 (failing input: page size 4096, page 2, payload `"data"` padded with
zeros): on the stream opened by `dal_open`, `write_page` succeeds, and the
following `read_page(dal, 2)` returns a page whose payload is what the fresh
heap block held (here `0xAA` bytes) with only byte 4095 cleared; it differs
from the payload written. -/
theorem read_page_after_write_page_misses_payload :
    ∃ dal1 page dal2,
      write_page { id := 2, data := data_payload PAGE_DATA_LEN }
          (dal_open { fp := none, page_size := PAGE_SIZE, pm := none } true) = some dal1 ∧
        read_page stale_heap dal1 2 = some (page, dal2) ∧
        page.data = (List.replicate PAGE_DATA_LEN 170).set 4095 0 ∧
        page.data[0]? = some 170 ∧ (data_payload PAGE_DATA_LEN)[0]? = some 100 ∧
        page.data ≠ data_payload PAGE_DATA_LEN := by
  have hlen : (data_payload PAGE_DATA_LEN).length = 4096 := by
    unfold data_payload
    rw [List.length_append, List.length_replicate]
    rfl
  have hsz : size_t_of_int PAGE_SIZE = 4096 := by decide
  have hmul : int_mul 2 PAGE_SIZE = some 8192 := by decide
  have hsize : 0 ≤ PAGE_SIZE - 1 ∧ (PAGE_SIZE - 1).toNat < PAGE_DATA_LEN := by decide
  have hgrant : stale_heap.grants sizeof_Page = true := by decide
  obtain ⟨f1, hwrite, hmode⟩ := write_page_keeps_mode
    { id := 2, data := data_payload PAGE_DATA_LEN }
    { fp := some { readable := false, writable := true, bytes := [], pos := 0 },
      page_size := PAGE_SIZE, pm := none }
    { readable := false, writable := true, bytes := [], pos := 0 } 8192
    rfl hmul (by rw [hlen]; exact le_of_eq hsz)
  have hread := read_page_on_write_only_stream stale_heap
    { fp := some f1, page_size := PAGE_SIZE, pm := none }
    f1 2 8192 rfl hmode hgrant hsize hmul
  have hdata : ((List.range PAGE_DATA_LEN).map stale_heap.byte_cell).set
      (PAGE_SIZE - 1).toNat 0 = (List.replicate PAGE_DATA_LEN 170).set 4095 0 := by
    have hmap : (List.range PAGE_DATA_LEN).map stale_heap.byte_cell
        = List.replicate PAGE_DATA_LEN 170 := map_range_const PAGE_DATA_LEN 170
    rw [hmap]
    rfl
  have h0 : ((List.replicate PAGE_DATA_LEN 170).set 4095 0)[0]? = some 170 := by
    rw [List.getElem?_set_ne (by decide), List.getElem?_replicate]
    rfl
  have hp0 : (data_payload PAGE_DATA_LEN)[0]? = some 100 := by
    unfold data_payload
    rw [List.cons_append, List.getElem?_cons_zero]
  rw [hdata] at hread
  refine ⟨_, _, _, hwrite, hread, rfl, h0, hp0, ?_⟩
  intro hc
  have hc0 : ((List.replicate PAGE_DATA_LEN 170).set 4095 0)[0]?
      = (data_payload PAGE_DATA_LEN)[0]? := congrArg (fun l => l[0]?) hc
  rw [h0, hp0] at hc0
  exact absurd hc0 (by decide)

/-! ## Further claims about the allocator -/

theorem set_same_value (l : List Int) (k : Nat) (v : Int) (h : l[k]? = some v) :
    l.set k v = l := by
  apply List.ext_getElem?
  intro i
  rw [List.getElem?_set]
  by_cases hik : k = i
  · subst hik
    have hlt : k < l.length := by
      by_contra hge
      rw [List.getElem?_eq_none (by omega)] at h
      simp at h
    rw [if_pos rfl, if_pos hlt, h]
  · rw [if_neg hik]

/-- C16: on a manager whose free list is full (`next_free_page = max_page`),
`release_page(pm, id)` leaves the whole manager (array, `max_page` and cursor)
unchanged for every `id`; no cell is written. -/
theorem release_page_on_full_list_changes_nothing (m : PageManager) (id : Int)
    (hfull : m.next_free_page = m.max_page) :
    release_page (some m) id = some (some m) :=
  release_page_full m id (by omega)

theorem release_page_on_full_list_changes_nothing_witness :
    (3 : Int) = 3 ∧
      release_page (some { free_pages := some [0, 1, 5], max_page := 3, next_free_page := 3 }) 9
        = some (some { free_pages := some [0, 1, 5], max_page := 3, next_free_page := 3 }) :=
  ⟨rfl, release_page_on_full_list_changes_nothing
    { free_pages := some [0, 1, 5], max_page := 3, next_free_page := 3 } 9 rfl⟩

/-- C18: on a well-formed manager with `0 < next_free_page <= max_page`,
`get_next_free_page` followed by `release_page` of the identifier it returned
restores the manager exactly: array, `max_page` and cursor are as before the
allocation. -/
theorem get_then_release_restores_manager (m : PageManager) (hwf : well_formed m)
    (hpos : 0 < m.next_free_page) (hle : m.next_free_page ≤ m.max_page) :
    ∃ m1 id, get_next_free_page (some m) = some (some m1, id) ∧
      release_page (some m1) id = some (some m) := by
  obtain ⟨fp, hfp, hlen, -⟩ := hwf
  have hlt : (m.next_free_page - 1).toNat < fp.length := by omega
  have hv : fp[(m.next_free_page - 1).toNat]? = some (fp[(m.next_free_page - 1).toNat]) :=
    List.getElem?_eq_getElem hlt
  refine ⟨_, _, get_next_free_page_pop m fp _ hfp hpos hv, ?_⟩
  rw [release_page_accepted { m with next_free_page := m.next_free_page - 1 } fp _ hfp hlen
    (by show 0 ≤ m.next_free_page - 1; omega)
    (by show m.next_free_page - 1 < m.max_page; omega)]
  obtain ⟨fp0, mx, cur⟩ := m
  simp only at hfp hv
  subst hfp
  simp only [set_same_value fp (cur - 1).toNat _ hv, Int.sub_add_cancel]

theorem get_then_release_restores_manager_witness :
    well_formed { free_pages := some [0, 1, 7, 3], max_page := 4, next_free_page := 3 } ∧
      (0 : Int) < 3 ∧ (3 : Int) ≤ 4 ∧
      ∃ m1 id,
        get_next_free_page
            (some { free_pages := some [0, 1, 7, 3], max_page := 4, next_free_page := 3 })
          = some (some m1, id) ∧
        release_page (some m1) id
          = some (some { free_pages := some [0, 1, 7, 3], max_page := 4, next_free_page := 3 }) :=
  ⟨⟨[0, 1, 7, 3], rfl, by decide, by decide⟩, by decide, by decide,
    get_then_release_restores_manager
      { free_pages := some [0, 1, 7, 3], max_page := 4, next_free_page := 3 }
      ⟨[0, 1, 7, 3], rfl, by decide, by decide⟩ (by decide) (by decide)⟩

theorem release_step_bounds (m : PageManager) (id : Int) (h : cursor_in_bounds m) :
    ∃ m1, release_page (some m) id = some (some m1) ∧ cursor_in_bounds m1 ∧
      m1.max_page = m.max_page := by
  obtain ⟨fp, hfp, hlen, h0, h1⟩ := h
  by_cases hacc : m.next_free_page < m.max_page
  · refine ⟨_, release_page_accepted m fp id hfp hlen h0 hacc,
      ⟨_, rfl, by simpa using hlen, ?_, ?_⟩, rfl⟩
    · show 0 ≤ m.next_free_page + 1
      omega
    · show m.next_free_page + 1 ≤ m.max_page
      omega
  · exact ⟨m, release_page_full m id (by omega), ⟨fp, hfp, hlen, h0, h1⟩, rfl⟩

theorem get_step_bounds (m : PageManager) (h : cursor_in_bounds m) :
    ∃ m1 r, get_next_free_page (some m) = some (some m1, r) ∧ cursor_in_bounds m1 ∧
      m1.max_page = m.max_page := by
  obtain ⟨fp, hfp, hlen, h0, h1⟩ := h
  by_cases hpos : 0 < m.next_free_page
  · have hlt : (m.next_free_page - 1).toNat < fp.length := by omega
    have hv : fp[(m.next_free_page - 1).toNat]? = some (fp[(m.next_free_page - 1).toNat]) :=
      List.getElem?_eq_getElem hlt
    refine ⟨_, _, get_next_free_page_pop m fp _ hfp hpos hv, ⟨fp, hfp, hlen, ?_, ?_⟩, rfl⟩
    · show 0 ≤ m.next_free_page - 1
      omega
    · show m.next_free_page - 1 ≤ m.max_page
      omega
  · exact ⟨m, -1, get_next_free_page_exhausted m (by omega), ⟨fp, hfp, hlen, h0, h1⟩, rfl⟩

/-- C17: for every capacity `c >= 2` the manager returned by
`initialize_page_manager(c)` satisfies `0 <= next_free_page <= max_page = c`
(with the array present and holding at least `max_page` cells); `release_page`, for
every argument, and `get_next_free_page` preserve this and stay within the
array: the cell written by `release_page` has index `next_free_page` in
`[0, max_page)` and the cell read by `get_next_free_page` has index
`next_free_page - 1` in `[0, max_page)`. For `c < 2` the fresh cursor 2 exceeds
`max_page`. -/
theorem cursor_bounds_are_invariant (heap : Heap) (c : Int) (m : PageManager)
    (hc : 2 ≤ c) (hinit : initialize_page_manager heap c = some (some m)) :
    (0 ≤ m.next_free_page ∧ m.next_free_page ≤ m.max_page ∧ m.max_page = c ∧
        cursor_in_bounds m) ∧
      (∀ (m0 : PageManager) (id : Int), cursor_in_bounds m0 →
        (∃ m1, release_page (some m0) id = some (some m1) ∧ cursor_in_bounds m1 ∧
          m1.max_page = m0.max_page) ∧
        (m0.next_free_page < m0.max_page →
          0 ≤ m0.next_free_page ∧ m0.next_free_page < m0.max_page)) ∧
      (∀ m0 : PageManager, cursor_in_bounds m0 →
        (∃ m1 r, get_next_free_page (some m0) = some (some m1, r) ∧ cursor_in_bounds m1 ∧
          m1.max_page = m0.max_page) ∧
        (0 < m0.next_free_page →
          0 ≤ m0.next_free_page - 1 ∧ m0.next_free_page - 1 < m0.max_page)) ∧
      (∀ (c0 : Int) (m0 : PageManager), c0 < 2 →
        initialize_page_manager heap c0 = some (some m0) →
        m0.max_page < m0.next_free_page) := by
  have hinv := fresh_manager_free_region heap c m hc hinit
  obtain ⟨hmax, -, -⟩ := fresh_manager_shape heap c m hinit
  have hb := free_region_disjoint_in_bounds m [] hinv
  refine ⟨?_, ?_, ?_, ?_⟩
  · obtain ⟨fp, hfp, hlen, h0, h1⟩ := hb
    exact ⟨h0, h1, hmax, fp, hfp, hlen, h0, h1⟩
  · intro m0 id h0
    refine ⟨release_step_bounds m0 id h0, ?_⟩
    obtain ⟨fp, -, -, hlo, -⟩ := h0
    exact fun hlt => ⟨hlo, hlt⟩
  · intro m0 h0
    refine ⟨get_step_bounds m0 h0, ?_⟩
    obtain ⟨fp, -, -, -, hhi⟩ := h0
    intro hpos
    constructor <;> omega
  · intro c0 m0 hc0 h0
    obtain ⟨hmax0, hcur0, -⟩ := fresh_manager_shape heap c0 m0 h0
    rw [hmax0, hcur0]
    exact hc0

theorem cursor_bounds_are_invariant_witness :
    (2 : Int) ≤ 2 ∧
      initialize_page_manager zeroed_heap 2
        = some (some { free_pages := some [0, 1], max_page := 2, next_free_page := 2 }) ∧
      ((0 ≤ (2 : Int) ∧ (2 : Int) ≤ 2 ∧ (2 : Int) = 2 ∧
          cursor_in_bounds { free_pages := some [0, 1], max_page := 2, next_free_page := 2 }) ∧
        (∀ (m0 : PageManager) (id : Int), cursor_in_bounds m0 →
          (∃ m1, release_page (some m0) id = some (some m1) ∧ cursor_in_bounds m1 ∧
            m1.max_page = m0.max_page) ∧
          (m0.next_free_page < m0.max_page →
            0 ≤ m0.next_free_page ∧ m0.next_free_page < m0.max_page)) ∧
        (∀ m0 : PageManager, cursor_in_bounds m0 →
          (∃ m1 r, get_next_free_page (some m0) = some (some m1, r) ∧ cursor_in_bounds m1 ∧
            m1.max_page = m0.max_page) ∧
          (0 < m0.next_free_page →
            0 ≤ m0.next_free_page - 1 ∧ m0.next_free_page - 1 < m0.max_page)) ∧
        (∀ (c0 : Int) (m0 : PageManager), c0 < 2 →
          initialize_page_manager zeroed_heap c0 = some (some m0) →
          m0.max_page < m0.next_free_page)) :=
  ⟨by decide, by decide,
    cursor_bounds_are_invariant zeroed_heap 2
      { free_pages := some [0, 1], max_page := 2, next_free_page := 2 } (by decide) (by decide)⟩

/-- C19: on the manager returned by `initialize_page_manager(c)` for any
capacity `c >= 2`, with no release performed, the first `get_next_free_page`
returns 1, the second returns 0 and leaves the cursor at 0, and the third and
every later call returns `-1` and leaves the manager unchanged. -/
theorem fresh_manager_allocates_one_then_zero (heap : Heap) (c : Int) (m : PageManager)
    (hc : 2 ≤ c) (hinit : initialize_page_manager heap c = some (some m)) :
    ∃ m1 m2, get_next_free_page (some m) = some (some m1, 1) ∧
      get_next_free_page (some m1) = some (some m2, 0) ∧
      m2.next_free_page = 0 ∧
      get_next_free_page (some m2) = some (some m2, -1) ∧
      ∀ k : Nat, run_calls (some m2) (List.replicate k Call.get)
        = some (some m2, List.replicate k (Event.got (-1))) := by
  obtain ⟨hmax, hcur, fp, hfp, hlen, hget⟩ := fresh_manager_shape heap c m hinit
  have h0 : fp[0]? = some (0 : Int) := by simpa using hget 0 (by omega)
  have h1 : fp[1]? = some (1 : Int) := by simpa using hget 1 (by omega)
  obtain ⟨fp0, mx, cur⟩ := m
  simp only at hmax hcur hfp
  subst hmax hcur hfp
  have hg1 := get_next_free_page_pop
    { free_pages := some fp, max_page := mx, next_free_page := FIRST_FREE_PAGE } fp 1 rfl
    (by show (0 : Int) < FIRST_FREE_PAGE; decide) h1
  have hg2 := get_next_free_page_pop
    { free_pages := some fp, max_page := mx, next_free_page := FIRST_FREE_PAGE - 1 } fp 0 rfl
    (by show (0 : Int) < FIRST_FREE_PAGE - 1; decide) h0
  have hg3 := get_next_free_page_exhausted
    { free_pages := some fp, max_page := mx, next_free_page := FIRST_FREE_PAGE - 1 - 1 }
    (by show FIRST_FREE_PAGE - 1 - 1 ≤ (0 : Int); decide)
  refine ⟨_, _, hg1, hg2, by show FIRST_FREE_PAGE - 1 - 1 = (0 : Int); decide, hg3, ?_⟩
  intro k
  induction k with
  | zero => rfl
  | succ k ih =>
    rw [List.replicate_succ, List.replicate_succ]
    simp only [run_calls]
    rw [hg3]
    simp only [ih]

theorem fresh_manager_allocates_one_then_zero_witness :
    (2 : Int) ≤ 100 ∧
      (∃ m, initialize_page_manager zeroed_heap 100 = some (some m) ∧
        ∃ m1 m2, get_next_free_page (some m) = some (some m1, 1) ∧
          get_next_free_page (some m1) = some (some m2, 0) ∧
          m2.next_free_page = 0 ∧
          get_next_free_page (some m2) = some (some m2, -1) ∧
          ∀ k : Nat, run_calls (some m2) (List.replicate k Call.get)
            = some (some m2, List.replicate k (Event.got (-1)))) := by
  refine ⟨by decide, ?_⟩
  obtain ⟨m, hm⟩ := initialize_granted zeroed_heap 100 (by decide) (by decide) (by decide)
  exact ⟨m, hm, fresh_manager_allocates_one_then_zero zeroed_heap 100 m (by decide) hm⟩

/-! ## Page I/O: what `write_page`, `allocate_empty_page` and `read_page` do -/

theorem padded_take_length (bytes : List Nat) (pos : Nat) :
    ((bytes ++ List.replicate (pos - bytes.length) 0).take pos).length = pos := by
  rw [List.length_take, List.length_append, List.length_replicate]
  omega

theorem padded_getElem? (bytes : List Nat) (pos j : Nat) :
    (bytes ++ List.replicate (pos - bytes.length) 0)[j]?
      = if j < bytes.length then bytes[j]? else if j < pos then some 0 else none := by
  rw [List.getElem?_append]
  by_cases h : j < bytes.length
  · rw [if_pos h, if_pos h]
  · rw [if_neg h, if_neg h, List.getElem?_replicate]
    by_cases h2 : j < pos
    · rw [if_pos h2, if_pos (by omega)]
    · rw [if_neg h2, if_neg (by omega)]

theorem write_at_length (bytes : List Nat) (pos : Nat) (chunk : List Nat) :
    (write_at bytes pos chunk).length = max bytes.length (pos + chunk.length) := by
  unfold write_at
  simp only [List.length_append, List.length_take, List.length_drop, List.length_replicate]
  omega

theorem write_at_inside (bytes : List Nat) (pos : Nat) (chunk : List Nat) (i : Nat)
    (hi : i < chunk.length) :
    (write_at bytes pos chunk)[pos + i]? = chunk[i]? := by
  unfold write_at
  have hlen := padded_take_length bytes pos
  simp only []
  rw [List.append_assoc, List.getElem?_append_right (by omega), hlen,
    List.getElem?_append_left (by omega)]
  congr 1
  omega

theorem write_at_before (bytes : List Nat) (pos : Nat) (chunk : List Nat) (j : Nat)
    (hj : j < pos) :
    (write_at bytes pos chunk)[j]? = if j < bytes.length then bytes[j]? else some 0 := by
  unfold write_at
  have hlen := padded_take_length bytes pos
  simp only []
  rw [List.append_assoc, List.getElem?_append_left (by omega),
    List.getElem?_take_of_lt hj, padded_getElem?, if_pos hj]

theorem write_at_after (bytes : List Nat) (pos : Nat) (chunk : List Nat) (j : Nat)
    (hj : pos + chunk.length ≤ j) :
    (write_at bytes pos chunk)[j]? = bytes[j]? := by
  unfold write_at
  have hlen := padded_take_length bytes pos
  simp only []
  rw [List.append_assoc, List.getElem?_append_right (by omega), hlen,
    List.getElem?_append_right (by omega), List.getElem?_drop, padded_getElem?]
  have hidx : pos + chunk.length + (j - pos - chunk.length) = j := by omega
  rw [hidx]
  by_cases h : j < bytes.length
  · rw [if_pos h]
  · rw [if_neg h, if_neg (by omega), List.getElem?_eq_none (by omega)]

theorem fseek_set_writable (f : FILE) (offset : Int) :
    (fseek_set f offset).writable = f.writable := by
  unfold fseek_set
  split <;> rfl

theorem fseek_set_bytes (f : FILE) (offset : Int) :
    (fseek_set f offset).bytes = f.bytes := by
  unfold fseek_set
  split <;> rfl

theorem write_page_on_writable_stream (page : Page) (dal : Dal) (f : FILE) (offset : Int)
    (hfp : dal.fp = some f) (hmode : f.writable = true)
    (hsize : 0 ≤ dal.page_size - 1 ∧ (dal.page_size - 1).toNat < PAGE_DATA_LEN)
    (hlen : page.data.length = PAGE_DATA_LEN)
    (hoff : int_mul page.id dal.page_size = some offset) :
    write_page page dal
      = some { dal with
               fp := some
                 { readable := f.readable, writable := f.writable,
                   bytes := write_at f.bytes (fseek_set f offset).pos
                     (page.data.take dal.page_size.toNat),
                   pos := (fseek_set f offset).pos + dal.page_size.toNat } } := by
  have hsz := size_t_of_page_size dal.page_size hsize.1 hsize.2
  have hne : ¬ dal.page_size.toNat = 0 := by omega
  have hle : ¬ page.data.length < dal.page_size.toNat := by rw [hlen]; omega
  have hnw : ¬ ((fseek_set f offset).writable = false ∨ dal.page_size.toNat = 0) := by
    rw [fseek_set_writable, hmode]
    simp [hne]
  unfold write_page
  simp only [hfp, hoff, hsz]
  unfold fwrite_one
  rw [if_neg hnw, if_neg hle]
  simp only [fseek_set_writable, fseek_set_readable, fseek_set_bytes]

theorem allocate_empty_page_in_bounds (heap : Heap) (dal : Dal)
    (hgrant : heap.grants sizeof_Page = true)
    (hsize : 0 ≤ dal.page_size - 1 ∧ (dal.page_size - 1).toNat < PAGE_DATA_LEN) :
    allocate_empty_page heap dal
      = some { id := -1,
               data := ((List.range PAGE_DATA_LEN).map heap.byte_cell).set
                 (dal.page_size - 1).toNat 0 } := by
  unfold allocate_empty_page
  simp only [hgrant, if_true, if_pos hsize]

theorem allocate_empty_page_some (heap : Heap) (dal : Dal) (p : Page)
    (h : allocate_empty_page heap dal = some p) :
    heap.grants sizeof_Page = true ∧
      (0 ≤ dal.page_size - 1 ∧ (dal.page_size - 1).toNat < PAGE_DATA_LEN) ∧
      p = { id := -1,
            data := ((List.range PAGE_DATA_LEN).map heap.byte_cell).set
              (dal.page_size - 1).toNat 0 } := by
  unfold allocate_empty_page at h
  by_cases hg : heap.grants sizeof_Page = true
  · by_cases hs : 0 ≤ dal.page_size - 1 ∧ (dal.page_size - 1).toNat < PAGE_DATA_LEN
    · simp only [hg, if_true, if_pos hs, Option.some.injEq] at h
      exact ⟨hg, hs, h.symm⟩
    · simp only [hg, if_true, if_neg hs] at h
      exact absurd h (by simp)
  · simp only [hg] at h
    exact absurd h (by simp)

theorem fread_one_some (buf : List Nat) (size : Nat) (f : FILE) (buf1 : List Nat) (f1 : FILE)
    (h : fread_one buf size f = some (buf1, f1)) :
    buf1.length = buf.length := by
  unfold fread_one at h
  by_cases h1 : f.readable = false ∨ size = 0
  · rw [if_pos h1] at h
    simp only [Option.some.injEq, Prod.mk.injEq] at h
    rw [← h.1]
  · rw [if_neg h1] at h
    by_cases h2 : buf.length < size
    · rw [if_pos h2] at h
      exact absurd h (by simp)
    · rw [if_neg h2] at h
      simp only [Option.some.injEq, Prod.mk.injEq] at h
      rw [← h.1]
      simp only [List.length_append, List.length_drop, List.length_take]
      omega

theorem read_page_some (heap : Heap) (dal : Dal) (n : Int) (p : Page) (d : Dal)
    (h : read_page heap dal n = some (p, d)) :
    ∃ p0, allocate_empty_page heap dal = some p0 ∧ p.id = p0.id ∧
      p.data.length = p0.data.length := by
  unfold read_page at h
  cases hp : allocate_empty_page heap dal with
  | none => simp [hp] at h
  | some p0 =>
    refine ⟨p0, rfl, ?_⟩
    simp only [hp] at h
    split at h
    · rename_i f offset hf ho
      split at h
      · simp at h
      · rename_i data f1 hr
        simp only [Option.some.injEq, Prod.mk.injEq] at h
        rw [← h.1]
        exact ⟨rfl, fread_one_some _ _ _ _ _ hr⟩
    · simp at h

theorem data_payload_length : (data_payload PAGE_DATA_LEN).length = PAGE_DATA_LEN := by
  unfold data_payload
  rw [List.length_append, List.length_replicate]
  rfl

theorem data_payload_head : (data_payload PAGE_DATA_LEN)[0]? = some 100 := by
  unfold data_payload
  rw [List.cons_append, List.getElem?_cons_zero]

theorem int_mul_some (a b offset : Int) (h : int_mul a b = some offset) : offset = a * b := by
  unfold int_mul at h
  split at h
  · simp only [Option.some.injEq] at h
    exact h.symm
  · simp at h

/-! ## Further claims about page I/O -/

/-- C12: every page returned by `read_page(dal, n)` has id `-1`, whatever the
page number `n` requested; `read_page` never stores `n` in the page. -/
theorem read_page_leaves_id_unassigned (heap : Heap) (dal : Dal) (n : Int) (p : Page)
    (d : Dal) (h : read_page heap dal n = some (p, d)) :
    p.id = -1 := by
  obtain ⟨p0, hp0, hid, -⟩ := read_page_some heap dal n p d h
  obtain ⟨-, -, hp⟩ := allocate_empty_page_some heap dal p0 hp0
  rw [hid, hp]

theorem read_page_leaves_id_unassigned_witness :
    read_page stale_heap (dal_open { fp := none, page_size := PAGE_SIZE, pm := none } true) 2
        = some ({ id := -1,
                  data := ((List.range PAGE_DATA_LEN).map stale_heap.byte_cell).set
                    (PAGE_SIZE - 1).toNat 0 },
                { fp := some { readable := false, writable := true, bytes := [], pos := 8192 },
                  page_size := PAGE_SIZE, pm := none }) ∧
      (-1 : Int) = -1 ∧ (-1 : Int) ≠ 2 :=
  have hread := read_page_on_write_only_stream stale_heap
    (dal_open { fp := none, page_size := PAGE_SIZE, pm := none } true)
    { readable := false, writable := true, bytes := [], pos := 0 } 2 8192
    rfl rfl (by decide) (by decide) (by decide)
  ⟨hread, read_page_leaves_id_unassigned stale_heap _ 2 _ _ hread, by decide⟩

/-- C11 (counterexample): on the empty file just opened by `dal_open`,
`write_page` of a page with id `-1` and payload `"data"` returns normally and
the file then starts with the byte `'d'`: the page has been written at
position 0. -/
theorem write_page_with_negative_id_writes :
    ∃ f1, write_page { id := -1, data := data_payload PAGE_DATA_LEN }
          (dal_open { fp := none, page_size := PAGE_SIZE, pm := none } true)
        = some { fp := some f1, page_size := PAGE_SIZE, pm := none } ∧
      f1.bytes[0]? = some 100 ∧ f1.bytes ≠ [] := by
  have hw := write_page_on_writable_stream
    { id := -1, data := data_payload PAGE_DATA_LEN }
    { fp := some { readable := false, writable := true, bytes := [], pos := 0 },
      page_size := PAGE_SIZE, pm := none }
    { readable := false, writable := true, bytes := [], pos := 0 } (-4096)
    rfl rfl (by decide) data_payload_length (by decide)
  have hhead : (write_at [] 0 ((data_payload PAGE_DATA_LEN).take PAGE_SIZE.toNat))[0 + 0]?
      = some 100 := by
    rw [write_at_inside [] 0 _ 0 (by rw [List.length_take, data_payload_length]; decide),
      List.getElem?_take_of_lt (by decide), data_payload_head]
  refine ⟨{ readable := false, writable := true,
            bytes := write_at [] 0 ((data_payload PAGE_DATA_LEN).take PAGE_SIZE.toNat),
            pos := 0 + PAGE_SIZE.toNat }, hw, ?_, ?_⟩
  · dsimp only
    exact hhead
  · dsimp only
    intro hnil
    rw [hnil] at hhead
    simp at hhead

/-- C11 (amended): `write_page` tests no id and returns `void`. For a page with
id `< 0` (page size from 1 to 4096, stream open for writing) the `fseek` to the
negative offset is refused, and the `page_size` bytes of the payload are
written at the position the stream already had, which then advances by
`page_size`. -/
theorem write_page_negative_id_writes_at_current_position (page : Page) (dal : Dal)
    (f : FILE) (offset : Int)
    (hfp : dal.fp = some f) (hmode : f.writable = true)
    (hsize : 0 ≤ dal.page_size - 1 ∧ (dal.page_size - 1).toNat < PAGE_DATA_LEN)
    (hlen : page.data.length = PAGE_DATA_LEN)
    (hneg : page.id < 0)
    (hoff : int_mul page.id dal.page_size = some offset) :
    ∃ f1, write_page page dal = some { dal with fp := some f1 } ∧
      f1.bytes = write_at f.bytes f.pos (page.data.take dal.page_size.toNat) ∧
      f1.pos = f.pos + dal.page_size.toNat ∧
      ∀ i : Nat, i < dal.page_size.toNat → f1.bytes[f.pos + i]? = page.data[i]? := by
  have hoffset := int_mul_some _ _ _ hoff
  have hlt : offset < 0 := by
    rw [hoffset]
    exact Int.mul_neg_of_neg_of_pos hneg (by omega)
  have hseek : (fseek_set f offset).pos = f.pos := by
    unfold fseek_set
    rw [if_pos hlt]
  have hw := write_page_on_writable_stream page dal f offset hfp hmode hsize hlen hoff
  rw [hseek] at hw
  refine ⟨{ readable := f.readable, writable := f.writable,
            bytes := write_at f.bytes f.pos (page.data.take dal.page_size.toNat),
            pos := f.pos + dal.page_size.toNat }, hw, rfl, rfl, ?_⟩
  intro i hi
  dsimp only
  rw [write_at_inside f.bytes f.pos _ i (by rw [List.length_take, hlen]; omega),
    List.getElem?_take_of_lt hi]

theorem write_page_negative_id_writes_at_current_position_witness :
    (0 ≤ PAGE_SIZE - 1 ∧ (PAGE_SIZE - 1).toNat < PAGE_DATA_LEN) ∧
      (data_payload PAGE_DATA_LEN).length = PAGE_DATA_LEN ∧ (-1 : Int) < 0 ∧
      int_mul (-1) PAGE_SIZE = some (-4096) ∧
      ∃ f1, write_page { id := -1, data := data_payload PAGE_DATA_LEN }
            { fp := some { readable := false, writable := true, bytes := [], pos := 0 },
              page_size := PAGE_SIZE, pm := none }
          = some { fp := some f1, page_size := PAGE_SIZE, pm := none } ∧
        f1.bytes = write_at [] 0 ((data_payload PAGE_DATA_LEN).take PAGE_SIZE.toNat) ∧
        f1.pos = 0 + PAGE_SIZE.toNat ∧
        ∀ i : Nat, i < PAGE_SIZE.toNat → f1.bytes[0 + i]? = (data_payload PAGE_DATA_LEN)[i]? :=
  ⟨by decide, data_payload_length, by decide, by decide,
    write_page_negative_id_writes_at_current_position
      { id := -1, data := data_payload PAGE_DATA_LEN }
      { fp := some { readable := false, writable := true, bytes := [], pos := 0 },
        page_size := PAGE_SIZE, pm := none }
      { readable := false, writable := true, bytes := [], pos := 0 } (-4096)
      rfl rfl (by decide) data_payload_length (by decide) (by decide)⟩

theorem write_page_none_of_overflow (page : Page) (dal : Dal) (f : FILE)
    (hfp : dal.fp = some f) (hoff : int_mul page.id dal.page_size = none) :
    write_page page dal = none := by
  unfold write_page
  simp only [hfp, hoff]

theorem write_page_none_of_short_payload (page : Page) (dal : Dal) (f : FILE) (offset : Int)
    (hfp : dal.fp = some f) (hmode : f.writable = true)
    (hoff : int_mul page.id dal.page_size = some offset)
    (hshort : page.data.length < size_t_of_int dal.page_size) :
    write_page page dal = none := by
  have hnw : ¬ ((fseek_set f offset).writable = false ∨ size_t_of_int dal.page_size = 0) := by
    rw [fseek_set_writable, hmode]
    have : ¬ size_t_of_int dal.page_size = 0 := by omega
    simp [this]
  unfold write_page
  simp only [hfp, hoff]
  unfold fwrite_one
  rw [if_neg hnw, if_pos hshort]

/-- C13 (counterexample): with page size 4096, a page with id 524288 has the
offset `524288 * 4096 = 2 ^ 31`, which does not fit in `int`: the product in
`write_page` overflows, the call has no defined result, and no file state with
the payload at offsets `[2 ^ 31, 2 ^ 31 + 4096)` comes out of it. With page
size 8192, `write_page` of page 0 makes `fwrite` read 8192 bytes from the
4096-byte payload and has no defined result either. -/
theorem write_page_undefined_outside_int_offsets :
    (0 : Int) ≤ 524288 ∧ int_mul 524288 PAGE_SIZE = none ∧
      write_page { id := 524288, data := data_payload PAGE_DATA_LEN }
          (dal_open { fp := none, page_size := PAGE_SIZE, pm := none } true) = none ∧
      (¬ ∃ d f1, write_page { id := 524288, data := data_payload PAGE_DATA_LEN }
            (dal_open { fp := none, page_size := PAGE_SIZE, pm := none } true) = some d ∧
          d.fp = some f1 ∧
          ∀ i : Nat, i < 4096 →
            f1.bytes[2147483648 + i]? = (data_payload PAGE_DATA_LEN)[i]?) ∧
      write_page { id := 0, data := data_payload PAGE_DATA_LEN }
          (dal_open { fp := none, page_size := 8192, pm := none } true) = none := by
  have hover : int_mul 524288 PAGE_SIZE = none := by decide
  have h1 : write_page { id := 524288, data := data_payload PAGE_DATA_LEN }
      (dal_open { fp := none, page_size := PAGE_SIZE, pm := none } true) = none :=
    write_page_none_of_overflow _
      { fp := some { readable := false, writable := true, bytes := [], pos := 0 },
        page_size := PAGE_SIZE, pm := none }
      { readable := false, writable := true, bytes := [], pos := 0 } rfl hover
  have h2 : write_page { id := 0, data := data_payload PAGE_DATA_LEN }
      (dal_open { fp := none, page_size := 8192, pm := none } true) = none :=
    write_page_none_of_short_payload _
      { fp := some { readable := false, writable := true, bytes := [], pos := 0 },
        page_size := 8192, pm := none }
      { readable := false, writable := true, bytes := [], pos := 0 } 0 rfl rfl
      (by decide)
      (by
        show (data_payload PAGE_DATA_LEN).length < size_t_of_int 8192
        rw [data_payload_length]
        decide)
  refine ⟨by decide, hover, h1, ?_, h2⟩
  rintro ⟨d, f1, hw, -⟩
  rw [h1] at hw
  simp at hw

/-- C13 (amended): for a page with id `k >= 0` (page size from 1 to 4096, offset
`k * page_size` representable in `int`, stream open for writing), `write_page` sets the
`page_size` bytes of the file at offsets `[k * page_size, (k + 1) * page_size)`
to the payload and leaves every byte the file had outside that range as it
was; where the file was shorter than `k * page_size`, the gap reads as zeros,
and the file ends at the later of its old end and `(k + 1) * page_size`. -/
theorem write_page_touches_only_its_page (page : Page) (dal : Dal) (f : FILE)
    (offset : Int)
    (hfp : dal.fp = some f) (hmode : f.writable = true)
    (hsize : 0 ≤ dal.page_size - 1 ∧ (dal.page_size - 1).toNat < PAGE_DATA_LEN)
    (hlen : page.data.length = PAGE_DATA_LEN)
    (hk : 0 ≤ page.id)
    (hoff : int_mul page.id dal.page_size = some offset) :
    offset = page.id * dal.page_size ∧
      ∃ f1, write_page page dal = some { dal with fp := some f1 } ∧
        (∀ i : Nat, i < dal.page_size.toNat →
          f1.bytes[offset.toNat + i]? = page.data[i]?) ∧
        (∀ j : Nat, j < f.bytes.length →
          (j < offset.toNat ∨ offset.toNat + dal.page_size.toNat ≤ j) →
          f1.bytes[j]? = f.bytes[j]?) ∧
        (∀ j : Nat, f.bytes.length ≤ j → j < offset.toNat → f1.bytes[j]? = some 0) ∧
        f1.bytes.length = max f.bytes.length (offset.toNat + dal.page_size.toNat) := by
  have hoffset := int_mul_some _ _ _ hoff
  have hge : ¬ offset < 0 := by
    rw [hoffset]
    exact not_lt.2 (Int.mul_nonneg hk (by omega))
  have hseek : (fseek_set f offset).pos = offset.toNat := by
    unfold fseek_set
    rw [if_neg hge]
  have hw := write_page_on_writable_stream page dal f offset hfp hmode hsize hlen hoff
  rw [hseek] at hw
  have hchunk : (page.data.take dal.page_size.toNat).length = dal.page_size.toNat := by
    rw [List.length_take, hlen]
    omega
  refine ⟨hoffset,
    { readable := f.readable, writable := f.writable,
      bytes := write_at f.bytes offset.toNat (page.data.take dal.page_size.toNat),
      pos := offset.toNat + dal.page_size.toNat }, hw, ?_, ?_, ?_, ?_⟩
  · intro i hi
    dsimp only
    rw [write_at_inside f.bytes offset.toNat _ i (by rw [hchunk]; exact hi),
      List.getElem?_take_of_lt hi]
  · intro j hj hout
    dsimp only
    rcases hout with hlt | hgt
    · rw [write_at_before f.bytes offset.toNat _ j hlt, if_pos hj]
    · rw [write_at_after f.bytes offset.toNat _ j (by rw [hchunk]; exact hgt)]
  · intro j hj hlt
    dsimp only
    rw [write_at_before f.bytes offset.toNat _ j hlt, if_neg (by omega)]
  · dsimp only
    rw [write_at_length, hchunk]

theorem write_page_touches_only_its_page_witness :
    (0 ≤ PAGE_SIZE - 1 ∧ (PAGE_SIZE - 1).toNat < PAGE_DATA_LEN) ∧
      (data_payload PAGE_DATA_LEN).length = PAGE_DATA_LEN ∧ (0 : Int) ≤ 2 ∧
      int_mul 2 PAGE_SIZE = some 8192 ∧
      ((8192 : Int) = 2 * PAGE_SIZE ∧
        ∃ f1, write_page { id := 2, data := data_payload PAGE_DATA_LEN }
              { fp := some { readable := false, writable := true, bytes := [7, 7], pos := 0 },
                page_size := PAGE_SIZE, pm := none }
            = some { fp := some f1, page_size := PAGE_SIZE, pm := none } ∧
          (∀ i : Nat, i < PAGE_SIZE.toNat →
            f1.bytes[(8192 : Int).toNat + i]? = (data_payload PAGE_DATA_LEN)[i]?) ∧
          (∀ j : Nat, j < [7, 7].length →
            (j < (8192 : Int).toNat ∨ (8192 : Int).toNat + PAGE_SIZE.toNat ≤ j) →
            f1.bytes[j]? = [7, 7][j]?) ∧
          (∀ j : Nat, [7, 7].length ≤ j → j < (8192 : Int).toNat → f1.bytes[j]? = some 0) ∧
          f1.bytes.length = max [7, 7].length ((8192 : Int).toNat + PAGE_SIZE.toNat)) :=
  ⟨by decide, data_payload_length, by decide, by decide,
    write_page_touches_only_its_page
      { id := 2, data := data_payload PAGE_DATA_LEN }
      { fp := some { readable := false, writable := true, bytes := [7, 7], pos := 0 },
        page_size := PAGE_SIZE, pm := none }
      { readable := false, writable := true, bytes := [7, 7], pos := 0 } 8192
      rfl rfl (by decide) data_payload_length (by decide) (by decide)⟩

theorem fresh_page_data_length (heap : Heap) (k : Nat) :
    (((List.range PAGE_DATA_LEN).map heap.byte_cell).set k 0).length = PAGE_DATA_LEN := by
  rw [List.length_set, List.length_map, List.length_range]

theorem allocate_empty_page_length (heap : Heap) (dal : Dal) (p : Page)
    (h : allocate_empty_page heap dal = some p) :
    p.data.length = PAGE_DATA_LEN ∧ 1 ≤ dal.page_size ∧ dal.page_size ≤ 4096 := by
  obtain ⟨-, hsize, hp⟩ := allocate_empty_page_some heap dal p h
  have hbound : (dal.page_size - 1).toNat < 4096 := hsize.2
  refine ⟨?_, by omega, by omega⟩
  rw [hp]
  dsimp only
  exact fresh_page_data_length heap _

/-- C15 (counterexample): `create_dal` accepts the page sizes 8192 and 8. With
page size 8192 `allocate_empty_page` stores its zero byte at index 8191,
outside the 4096-byte payload (no defined result); with page size 8 the page
it returns has a payload of 4096 bytes, not 8. -/
theorem payload_length_ignores_page_size :
    create_dal zeroed_heap 8192 3
        = some (some { fp := none, page_size := 8192,
                       pm := some { free_pages := some [0, 1, 2], max_page := 3,
                                    next_free_page := 2 } }) ∧
      allocate_empty_page zeroed_heap { fp := none, page_size := 8192, pm := none } = none ∧
      create_dal zeroed_heap 8 3
        = some (some { fp := none, page_size := 8,
                       pm := some { free_pages := some [0, 1, 2], max_page := 3,
                                    next_free_page := 2 } }) ∧
      ∃ p, allocate_empty_page zeroed_heap { fp := none, page_size := 8, pm := none } = some p ∧
        p.data.length = 4096 ∧ p.data.length ≠ 8 := by
  refine ⟨by decide, by decide, by decide, ?_⟩
  have hp := allocate_empty_page_in_bounds zeroed_heap
    { fp := none, page_size := 8, pm := none } (by decide) (by decide)
  have hlen := (allocate_empty_page_length zeroed_heap _ _ hp).1
  have h4096 : PAGE_DATA_LEN = 4096 := rfl
  refine ⟨_, hp, by rw [hlen, h4096], by rw [hlen, h4096]; decide⟩

theorem fread_one_defined (buf : List Nat) (size : Nat) (f : FILE)
    (h : size ≤ buf.length) :
    ∃ buf1 f1, fread_one buf size f = some (buf1, f1) := by
  unfold fread_one
  by_cases h1 : f.readable = false ∨ size = 0
  · rw [if_pos h1]
    exact ⟨_, _, rfl⟩
  · rw [if_neg h1, if_neg (by omega)]
    exact ⟨_, _, rfl⟩

theorem read_page_defined (heap : Heap) (dal : Dal) (f : FILE) (n offset : Int)
    (hgrant : heap.grants sizeof_Page = true)
    (hsize : 0 ≤ dal.page_size - 1 ∧ (dal.page_size - 1).toNat < PAGE_DATA_LEN)
    (hfp : dal.fp = some f) (hoff : int_mul n dal.page_size = some offset) :
    ∃ p d, read_page heap dal n = some (p, d) := by
  have hsz := size_t_of_page_size dal.page_size hsize.1 hsize.2
  obtain ⟨buf1, f1, hr⟩ := fread_one_defined
    (((List.range PAGE_DATA_LEN).map heap.byte_cell).set (dal.page_size - 1).toNat 0)
    (size_t_of_int dal.page_size) (fseek_set f offset)
    (by rw [fresh_page_data_length, hsz]; omega)
  unfold read_page
  simp only [allocate_empty_page_in_bounds heap dal hgrant hsize, hfp, hoff, hr]
  exact ⟨_, _, rfl⟩

theorem size_t_of_positive_int (n : Int) (h1 : 1 ≤ n) (h2 : n ≤ INT_MAX) :
    size_t_of_int n = n.toNat := by
  unfold size_t_of_int SIZE_MODULUS
  unfold INT_MAX at h2
  have : n % ((2 ^ 64 : Nat) : Int) = n := by
    apply Int.emod_eq_of_lt <;> push_cast <;> omega
  rw [this]

theorem page_size_bounds_iff (n : Int) :
    (0 ≤ n - 1 ∧ (n - 1).toNat < PAGE_DATA_LEN) ↔ (1 ≤ n ∧ n ≤ 4096) := by
  have h4096 : PAGE_DATA_LEN = 4096 := rfl
  rw [h4096]
  omega

/-- C15 (amended): the payload buffer of every page produced by
`allocate_empty_page` or `read_page` has length 4096, the bound of the array in
`struct Page`, whatever `page_size` the `Dal` holds; it equals `page_size` only
for `page_size = PAGE_SIZE = 4096`. Given a granted allocation,
`allocate_empty_page` has a defined result (its store lies inside the payload)
exactly when `1 <= page_size <= 4096`, and so has `read_page` on an open stream
with a representable offset; `write_page` on a stream open for writing, with a
representable offset and `page_size >= 1`, has a defined result (the bytes it
reads lie inside the payload) exactly when `page_size` is at most the payload
length. -/
theorem payload_length_is_array_bound (heap : Heap) (dal : Dal) :
    (∀ p, allocate_empty_page heap dal = some p →
        p.data.length = PAGE_DATA_LEN ∧ 1 ≤ dal.page_size ∧ dal.page_size ≤ 4096) ∧
      (∀ n p d, read_page heap dal n = some (p, d) →
        p.data.length = PAGE_DATA_LEN ∧ 1 ≤ dal.page_size ∧ dal.page_size ≤ 4096) ∧
      (heap.grants sizeof_Page = true →
        ((∃ p, allocate_empty_page heap dal = some p ∧ p.data.length = PAGE_DATA_LEN) ↔
          (1 ≤ dal.page_size ∧ dal.page_size ≤ 4096))) ∧
      (heap.grants sizeof_Page = true →
        ∀ (f : FILE) (n offset : Int), dal.fp = some f →
          int_mul n dal.page_size = some offset →
          ((∃ p d, read_page heap dal n = some (p, d) ∧ p.data.length = PAGE_DATA_LEN) ↔
            (1 ≤ dal.page_size ∧ dal.page_size ≤ 4096))) ∧
      (∀ (page : Page) (f : FILE) (offset : Int), dal.fp = some f → f.writable = true →
        1 ≤ dal.page_size → dal.page_size ≤ INT_MAX →
        int_mul page.id dal.page_size = some offset →
        ((∃ d, write_page page dal = some d) ↔ dal.page_size.toNat ≤ page.data.length)) ∧
      (PAGE_DATA_LEN = 4096 ∧ PAGE_SIZE = 4096) := by
  have hread : ∀ n p d, read_page heap dal n = some (p, d) →
      p.data.length = PAGE_DATA_LEN ∧ 1 ≤ dal.page_size ∧ dal.page_size ≤ 4096 := by
    intro n p d h
    obtain ⟨p0, hp0, -, hlen⟩ := read_page_some heap dal n p d h
    obtain ⟨h1, h2⟩ := allocate_empty_page_length heap dal p0 hp0
    exact ⟨hlen.trans h1, h2⟩
  refine ⟨allocate_empty_page_length heap dal, hread, ?_, ?_, ?_, rfl, rfl⟩
  · intro hgrant
    constructor
    · rintro ⟨p, hp, -⟩
      exact (allocate_empty_page_length heap dal p hp).2
    · intro hb
      have hsize := (page_size_bounds_iff dal.page_size).2 hb
      have hp := allocate_empty_page_in_bounds heap dal hgrant hsize
      exact ⟨_, hp, (allocate_empty_page_length heap dal _ hp).1⟩
  · intro hgrant f n offset hfp hoff
    constructor
    · rintro ⟨p, d, hp, -⟩
      exact (hread n p d hp).2
    · intro hb
      have hsize := (page_size_bounds_iff dal.page_size).2 hb
      obtain ⟨p, d, hp⟩ := read_page_defined heap dal f n offset hgrant hsize hfp hoff
      exact ⟨p, d, hp, (hread n p d hp).1⟩
  · intro page f offset hfp hmode h1 hmax hoff
    have hsz := size_t_of_positive_int dal.page_size h1 hmax
    constructor
    · rintro ⟨d, hw⟩
      by_contra hlt
      have hnone := write_page_none_of_short_payload page dal f offset hfp hmode hoff
        (by rw [hsz]; omega)
      rw [hnone] at hw
      simp at hw
    · intro hle
      obtain ⟨f1, hw, -⟩ := write_page_keeps_mode page dal f offset hfp hoff
        (by rw [hsz]; exact hle)
      exact ⟨_, hw⟩

end MonkeyDb
